import Mathlib

/-!
Verification of the PaletteAI repository's core logic.

The development shallowly embeds the pure computational content of
`src/services/fluxService.ts` (color quantization, mood heuristic, style
merge, prompt fusion), the profile editing operations of
`src/components/StyleEditor.tsx` / `src/App.tsx`, and the request routing
of the node HTTP proxy.  JavaScript numbers are modelled by the exact
fraction type `Q` below (an integer numerator over a natural denominator,
kept unnormalized so that every operation reduces in the kernel); `Q.val`
interprets a fraction as a rational number and is used to state the
specification-side properties.  NaN is modelled by `Option Q` with `none`
for NaN where the source can produce it.  Strings are Lean `String`s and
the few JavaScript string operations used by the source (`trim`, `join`,
`startsWith`, `slice`, first-occurrence `replace`) are defined explicitly
on the underlying character lists.
-/

/-- Exact fraction model of a JavaScript number: `num / den`.  All
constructors used by the embedded code produce a positive denominator. -/
structure Q where
  num : Int
  den : Nat
deriving DecidableEq, Repr

/-- Denotation of a fraction as a rational number. -/
def Q.val (x : Q) : ℚ := (x.num : ℚ) / (x.den : ℚ)

/-- Embed an integer. -/
def Q.ofInt (n : Int) : Q := ⟨n, 1⟩

/-- Embed a natural number. -/
def Q.ofNat (n : Nat) : Q := ⟨(n : Int), 1⟩

/-- Literal fraction `n / d` (used for the decimal literals of the source). -/
def Q.frac (n : Int) (d : Nat) : Q := ⟨n, d⟩

/-- Addition of fractions (cross multiplication, no normalization). -/
def Q.add (a b : Q) : Q := ⟨a.num * (b.den : Int) + b.num * (a.den : Int), a.den * b.den⟩

/-- Subtraction of fractions. -/
def Q.sub (a b : Q) : Q := ⟨a.num * (b.den : Int) - b.num * (a.den : Int), a.den * b.den⟩

/-- Multiplication of fractions. -/
def Q.mul (a b : Q) : Q := ⟨a.num * b.num, a.den * b.den⟩

/-- Division of a fraction by a natural number (the source only divides by
the palette length and by the constant 255, both positive). -/
def Q.divN (a : Q) (n : Nat) : Q := ⟨a.num, a.den * n⟩

/-- Strict comparison, correct whenever both denominators are positive. -/
def Q.lt (a b : Q) : Bool := decide (a.num * (b.den : Int) < b.num * (a.den : Int))

/-- Non-strict comparison, correct whenever both denominators are positive. -/
def Q.le (a b : Q) : Bool := decide (a.num * (b.den : Int) ≤ b.num * (a.den : Int))

/-- Model of `Math.max` on two numbers. -/
def Q.max2 (a b : Q) : Q := if Q.lt a b then b else a

/-- Model of `Math.min` on two numbers. -/
def Q.min2 (a b : Q) : Q := if Q.lt b a then b else a

/-- Model of `Math.round` (floor of `x + 1/2`), via floor division. -/
def Q.jsRound (x : Q) : Int := Int.fdiv (2 * x.num + (x.den : Int)) (2 * (x.den : Int))

theorem Q.val_ofInt (n : Int) : (Q.ofInt n).val = (n : ℚ) := by
  simp [Q.val, Q.ofInt]

theorem Q.val_ofNat (n : Nat) : (Q.ofNat n).val = (n : ℚ) := by
  simp [Q.val, Q.ofNat]

theorem Q.val_frac (n : Int) (d : Nat) : (Q.frac n d).val = (n : ℚ) / (d : ℚ) := rfl

theorem Q.val_add (a b : Q) (ha : a.den ≠ 0) (hb : b.den ≠ 0) :
    (Q.add a b).val = a.val + b.val := by
  have ha' : ((a.den : ℚ)) ≠ 0 := by exact_mod_cast ha
  have hb' : ((b.den : ℚ)) ≠ 0 := by exact_mod_cast hb
  simp only [Q.val, Q.add]
  push_cast
  field_simp

theorem Q.val_sub (a b : Q) (ha : a.den ≠ 0) (hb : b.den ≠ 0) :
    (Q.sub a b).val = a.val - b.val := by
  have ha' : ((a.den : ℚ)) ≠ 0 := by exact_mod_cast ha
  have hb' : ((b.den : ℚ)) ≠ 0 := by exact_mod_cast hb
  simp only [Q.val, Q.sub]
  push_cast
  field_simp
  ring

theorem Q.val_mul (a b : Q) : (Q.mul a b).val = a.val * b.val := by
  simp only [Q.val, Q.mul]
  push_cast
  rw [div_mul_div_comm]

theorem Q.val_divN (a : Q) (n : Nat) : (Q.divN a n).val = a.val / (n : ℚ) := by
  simp only [Q.val, Q.divN]
  push_cast
  rw [div_div]

theorem Q.lt_iff_val (a b : Q) (ha : 0 < a.den) (hb : 0 < b.den) :
    Q.lt a b = true ↔ a.val < b.val := by
  have ha' : (0 : ℚ) < (a.den : ℚ) := by exact_mod_cast ha
  have hb' : (0 : ℚ) < (b.den : ℚ) := by exact_mod_cast hb
  simp only [Q.lt, Q.val, decide_eq_true_eq]
  rw [div_lt_div_iff ha' hb']
  constructor
  · intro h; exact_mod_cast h
  · intro h; exact_mod_cast h

theorem Q.le_iff_val (a b : Q) (ha : 0 < a.den) (hb : 0 < b.den) :
    Q.le a b = true ↔ a.val ≤ b.val := by
  have ha' : (0 : ℚ) < (a.den : ℚ) := by exact_mod_cast ha
  have hb' : (0 : ℚ) < (b.den : ℚ) := by exact_mod_cast hb
  simp only [Q.le, Q.val, decide_eq_true_eq]
  rw [div_le_div_iff ha' hb']
  constructor
  · intro h; exact_mod_cast h
  · intro h; exact_mod_cast h

theorem Q.val_max2 (a b : Q) (ha : 0 < a.den) (hb : 0 < b.den) :
    (Q.max2 a b).val = max a.val b.val := by
  unfold Q.max2
  by_cases h : a.val < b.val
  · rw [if_pos ((Q.lt_iff_val a b ha hb).mpr h), max_eq_right h.le]
  · rw [if_neg (by rw [Q.lt_iff_val a b ha hb]; exact h), max_eq_left (le_of_not_lt h)]

theorem Q.val_min2 (a b : Q) (ha : 0 < a.den) (hb : 0 < b.den) :
    (Q.min2 a b).val = min a.val b.val := by
  unfold Q.min2
  by_cases h : b.val < a.val
  · rw [if_pos ((Q.lt_iff_val b a hb ha).mpr h), min_eq_right h.le]
  · rw [if_neg (by rw [Q.lt_iff_val b a hb ha]; exact h), min_eq_left (le_of_not_lt h)]

theorem Q.jsRound_eq_floor (x : Q) (hx : 0 < x.den) :
    Q.jsRound x = ⌊x.val + 1 / 2⌋ := by
  have h2 : (0 : Int) ≤ 2 * (x.den : Int) := by positivity
  rw [Q.jsRound, Int.fdiv_eq_ediv _ h2]
  have hden : ((x.den : ℚ)) ≠ 0 := by exact_mod_cast hx.ne'
  have : x.val + 1 / 2 = ((2 * x.num + (x.den : Int) : Int) : ℚ) / ((2 * x.den : Nat) : ℚ) := by
    simp only [Q.val]
    push_cast
    field_simp
    ring
  rw [this, Rat.floor_intCast_div_natCast]
  rfl

/-! Character and string helpers shared by the embedded functions. -/

/-- Lowercase hexadecimal digit characters, as produced by
`Number.prototype.toString(16)` on a value in `0 … 15`. -/
def hexChar : Nat → Char
  | 0 => '0' | 1 => '1' | 2 => '2' | 3 => '3' | 4 => '4'
  | 5 => '5' | 6 => '6' | 7 => '7' | 8 => '8' | 9 => '9'
  | 10 => 'a' | 11 => 'b' | 12 => 'c' | 13 => 'd' | 14 => 'e'
  | 15 => 'f' | _ => '0'

/-- Recognizer for a lowercase hexadecimal digit character. -/
def isLowerHexDigit (c : Char) : Bool :=
  (decide ('0' ≤ c) && decide (c ≤ '9')) || (decide ('a' ≤ c) && decide (c ≤ 'f'))

/-- Recognizer for any hexadecimal digit character (both cases), as in the
source's regular expression `[0-9a-fA-F]`. -/
def isHexDigitChar (c : Char) : Bool :=
  (decide ('0' ≤ c) && decide (c ≤ '9')) ||
  (decide ('a' ≤ c) && decide (c ≤ 'f')) ||
  (decide ('A' ≤ c) && decide (c ≤ 'F'))

/-- Numeric value of a hexadecimal digit character (0 for anything else). -/
def hexDigitVal (c : Char) : Nat :=
  if decide ('0' ≤ c) && decide (c ≤ '9') then c.toNat - 48
  else if decide ('a' ≤ c) && decide (c ≤ 'f') then c.toNat - 87
  else if decide ('A' ≤ c) && decide (c ≤ 'F') then c.toNat - 55
  else 0

/-- ASCII lowercasing of the hexadecimal letters, as `toLowerCase` acts on
an already validated 6-hex-digit string in `normalizeHex`. -/
def lowerHexChar (c : Char) : Char :=
  match c with
  | 'A' => 'a' | 'B' => 'b' | 'C' => 'c' | 'D' => 'd' | 'E' => 'e' | 'F' => 'f'
  | c => c

/-- Model of `String.prototype.trim` on the character list: drop Unicode
whitespace from both ends (restricted to Lean's whitespace predicate). -/
def jsTrimL (l : List Char) : List Char :=
  ((l.dropWhile Char.isWhitespace).reverse.dropWhile Char.isWhitespace).reverse

/-- Model of `String.prototype.trim`. -/
def jsTrim (s : String) : String := String.mk (jsTrimL s.data)

/-- Model of `String.prototype.replace(pattern, "")` for a single-character
pattern: remove the first occurrence only. -/
def removeFirst (c : Char) : List Char → List Char
  | [] => []
  | x :: t => if x = c then t else x :: removeFirst c t

/-- Model of `Array.prototype.join(sep)` for an array of strings. -/
def sjoin (sep : String) : List String → String
  | [] => ""
  | [x] => x
  | x :: xs => x ++ sep ++ sjoin sep xs

/-- Model of `String.prototype.startsWith`. -/
def jsStartsWith (s pre : String) : Bool :=
  decide (s.data.take pre.data.length = pre.data)

/-- Model of `String.prototype.slice(n)` for a non-negative index. -/
def jsSliceFrom (s : String) (n : Nat) : String := String.mk (s.data.drop n)

/-! Color Quantizer (`extractDominantPalette`, fluxService.ts lines 252-306). -/

/-- Model of `rgbToHex` (fluxService.ts lines 47-50): clamp each channel to
`0 … 255` and format as two lowercase hex digits after a `#`.  Channels are
naturals here, so `Math.round` is the identity and the clamp is `min · 255`. -/
def rgbToHex (r g b : Nat) : String :=
  String.mk ('#' ::
    [hexChar (min r 255 / 16), hexChar (min r 255 % 16),
     hexChar (min g 255 / 16), hexChar (min g 255 % 16),
     hexChar (min b 255 / 16), hexChar (min b 255 % 16)])

/-- One step of the pixel sampling loop of `extractDominantPalette`: the
loop visits the flat RGBA buffer at offsets 0, 12, 24, … (`stride = 4 * 3`),
skips samples whose alpha is below 220, and stops when the offset passes the
end of the buffer (a partial RGBA quadruple at the end reads an undefined
alpha, whose comparison with 220 is false, so it is skipped as well).
The fuel argument is an upper bound on the number of iterations; the
buffer length is always enough. -/
def samplePixelsAux : Nat → List Nat → List (Nat × Nat × Nat)
  | 0, _ => []
  | fuel + 1, r :: g :: b :: a :: rest =>
    (if 220 ≤ a then [(r, g, b)] else []) ++ samplePixelsAux fuel (rest.drop 8)
  | _ + 1, _ => []

/-- Sampled opaque pixels of one decoded (and already downscaled) image
buffer. -/
def samplePixels (data : List Nat) : List (Nat × Nat × Nat) :=
  samplePixelsAux data.length data

/-- Histogram bucket key of a pixel: 4 bits per channel
(`(rb << 8) | (gb << 4) | bb`). -/
def bucketKey (r g b : Nat) : Nat :=
  (((r >>> 4) <<< 8) ||| ((g >>> 4) <<< 4)) ||| (b >>> 4)

/-- Model of `histogram.set(key, (histogram.get(key) || 0) + 1)` on an
association list in insertion order (as a JavaScript `Map` iterates). -/
def bumpKey : List (Nat × Nat) → Nat → List (Nat × Nat)
  | [], k => [(k, 1)]
  | (k', c) :: t, k => if k' = k then (k', c + 1) :: t else (k', c) :: bumpKey t k

/-- The combined histogram over all images' sampled pixels. -/
def buildHistogram (images : List (List Nat)) : List (Nat × Nat) :=
  images.foldl
    (fun h img =>
      (samplePixels img).foldl (fun h2 p => bumpKey h2 (bucketKey p.1 p.2.1 p.2.2)) h)
    []

/-- Stable insertion by non-increasing count, modelling
`Array.prototype.sort((a, b) => b[1] - a[1])` (a stable sort ordered by
descending count). -/
def insertByCountDesc (x : Nat × Nat) : List (Nat × Nat) → List (Nat × Nat)
  | [] => [x]
  | y :: t => if y.2 ≤ x.2 then x :: y :: t else y :: insertByCountDesc x t

/-- Stable sort of the histogram entries by descending count. -/
def sortByCountDesc : List (Nat × Nat) → List (Nat × Nat)
  | [] => []
  | x :: t => insertByCountDesc x (sortByCountDesc t)

/-- Center color of a histogram bucket, formatted as hex
(fluxService.ts lines 292-300). -/
def bucketHex (key : Nat) : String :=
  rgbToHex (((key >>> 8) &&& 15) * 16 + 8) (((key >>> 4) &&& 15) * 16 + 8)
    ((key &&& 15) * 16 + 8)

/-- The collection loop of `extractDominantPalette` (lines 291-303): walk the
ranked buckets, push the bucket's center hex if it is not already present,
and stop as soon as `count` colors have been collected. -/
def collectColors : List (Nat × Nat) → Nat → List String → List String
  | [], _, acc => acc
  | (key, _) :: rest, count, acc =>
    let hex := bucketHex key
    let acc2 := if hex ∈ acc then acc else acc ++ [hex]
    if count ≤ acc2.length then acc2 else collectColors rest count acc2

/-- Model of `extractDominantPalette` (fluxService.ts lines 252-306), taking
the already decoded, downscaled pixel buffers of the input images. -/
def extractDominantPalette (images : List (List Nat)) (count : Nat) : List String :=
  let histogram := buildHistogram images
  let top := (sortByCountDesc histogram).take (max (count * 3) count)
  collectColors top count []

/-! Mood Heuristic (`inferMoodKeywords`, fluxService.ts lines 308-338). -/

/-- Model of `parseInt(s, 16)` on a short slice: skip leading whitespace, an
optional sign, an optional `0x`/`0X`, then read the longest hexadecimal
digit run; NaN (`none`) when no digit follows. -/
def jsParseHex (cs : List Char) : Option Int :=
  let cs1 := cs.dropWhile Char.isWhitespace
  let signed : Bool × List Char :=
    match cs1 with
    | '-' :: t => (true, t)
    | '+' :: t => (false, t)
    | t => (false, t)
  let cs2 : List Char :=
    match signed.2 with
    | '0' :: 'x' :: t => t
    | '0' :: 'X' :: t => t
    | t => t
  let digits := cs2.takeWhile isHexDigitChar
  if digits.isEmpty then none
  else
    let v : Int := (digits.foldl (fun acc c => acc * 16 + hexDigitVal c) 0 : Nat)
    some (if signed.1 then -v else v)

/-- Per-entry decoding in `inferMoodKeywords`: remove the first `#`, then
`parseInt` the three 2-character slices. `none` is NaN. -/
def decodeEntry (s : String) : Option Int × Option Int × Option Int :=
  let h := removeFirst '#' s.data
  (jsParseHex (h.take 2), jsParseHex ((h.drop 2).take 2), jsParseHex ((h.drop 4).take 2))

/-- NaN-propagating addition on channel values (JavaScript `+`). -/
def jsAddI : Option Int → Option Int → Option Int
  | some a, some b => some (a + b)
  | _, _ => none

/-- NaN-propagating operations on fractions. -/
def oMulQ : Option Q → Option Q → Option Q
  | some a, some b => some (Q.mul a b)
  | _, _ => none

def oAddQ : Option Q → Option Q → Option Q
  | some a, some b => some (Q.add a b)
  | _, _ => none

def oSubQ : Option Q → Option Q → Option Q
  | some a, some b => some (Q.sub a b)
  | _, _ => none

def oDivN (x : Option Q) (n : Nat) : Option Q := x.map (fun a => Q.divN a n)

def oMaxQ : Option Q → Option Q → Option Q
  | some a, some b => some (Q.max2 a b)
  | _, _ => none

def oMinQ : Option Q → Option Q → Option Q
  | some a, some b => some (Q.min2 a b)
  | _, _ => none

/-- Comparison `x < c` on a possibly-NaN value: false on NaN, as in
JavaScript. -/
def jsLtQ (x : Option Q) (c : Q) : Bool :=
  match x with
  | some v => Q.lt v c
  | none => false

/-- Comparison `x > c` on a possibly-NaN value: false on NaN. -/
def jsGtQ (x : Option Q) (c : Q) : Bool :=
  match x with
  | some v => Q.lt c v
  | none => false

/-- Model of `inferMoodKeywords` (fluxService.ts lines 308-338). -/
def inferMoodKeywords (palette : List String) : List String :=
  if palette = [] then ["balanced", "clean", "modern"]
  else
    let rgb := palette.map decodeEntry
    let sums :=
      rgb.foldl
        (fun acc c => (jsAddI acc.1 c.1, jsAddI acc.2.1 c.2.1, jsAddI acc.2.2 c.2.2))
        (some 0, some 0, some 0)
    let n := rgb.length
    let avgR := sums.1.map (fun s => Q.frac s n)
    let avgG := sums.2.1.map (fun s => Q.frac s n)
    let avgB := sums.2.2.map (fun s => Q.frac s n)
    let brightness :=
      oDivN
        (oAddQ (oAddQ (oMulQ (some (Q.frac 2126 10000)) avgR)
          (oMulQ (some (Q.frac 7152 10000)) avgG)) (oMulQ (some (Q.frac 722 10000)) avgB))
        255
    let maxC := oMaxQ (oMaxQ avgR avgG) avgB
    let minC := oMinQ (oMinQ avgR avgG) avgB
    let chroma := oDivN (oSubQ maxC minC) 255
    let moods :=
      [if jsLtQ brightness (Q.frac 35 100) then "moody"
       else if jsGtQ brightness (Q.frac 7 10) then "airy" else "balanced",
       if jsGtQ chroma (Q.frac 35 100) then "vibrant" else "muted",
       "stylized"]
    moods.take 3

/-- Specification-side decoding of a palette entry: all three channels must
parse (no NaN). -/
def entryRGB (s : String) : Option (Int × Int × Int) :=
  match decodeEntry s with
  | (some r, some g, some b) => some (r, g, b)
  | _ => none

/-- Specification-side decoding of a whole palette. -/
def decodePalette : List String → Option (List (Int × Int × Int))
  | [] => some []
  | s :: t =>
    match entryRGB s, decodePalette t with
    | some v, some vs => some (v :: vs)
    | _, _ => none

/-! Style merge (`normalizeHex`, `extractStyleWithVlm` field validation, and
the merge step of `analyzeStyle`, fluxService.ts lines 157-162, 210-225 and
340-393). -/

/-- Model of `normalizeHex` (fluxService.ts lines 157-162): trim, strip an
optional `0x`/`0X`, strip an optional leading `#`, require exactly six hex
digits, and return the lowercased `#`-prefixed form. -/
def normalizeHex (hex : String) : Option String :=
  let h0 := jsTrimL hex.data
  let h1 : List Char :=
    match h0 with
    | '0' :: 'x' :: t => t
    | '0' :: 'X' :: t => t
    | t => t
  let h2 : List Char :=
    match h1 with
    | '#' :: t => t
    | t => t
  if h2.length = 6 && h2.all isHexDigitChar then
    some (String.mk ('#' :: h2.map lowerHexChar))
  else none

/-- The optional style fields recovered from the vision-language model's
reply.  Used both for the permissively parsed JSON object (absent or
wrong-typed fields are `none`) and for the validated result of
`extractStyleWithVlm`. -/
structure VlmPartial where
  artisticStyle : Option String := none
  visualTechnique : Option String := none
  colorPalette : Option (List String) := none
  moodKeywords : Option (List String) := none
  suggestedName : Option String := none
  reasoning : Option String := none
deriving DecidableEq, Repr

/-- Field validation of `extractStyleWithVlm` (fluxService.ts lines
210-225): palette entries filtered through `normalizeHex`, mood keywords
truncated to six entries (non-string entries, dropped by the source, are
not representable here), scalar string fields passed through. -/
def vlmProcess (parsed : VlmPartial) : VlmPartial :=
  { artisticStyle := parsed.artisticStyle
    visualTechnique := parsed.visualTechnique
    colorPalette := parsed.colorPalette.map (fun l => l.filterMap normalizeHex)
    moodKeywords := parsed.moodKeywords.map (fun l => l.take 6)
    suggestedName := parsed.suggestedName
    reasoning := parsed.reasoning }

/-- The merged style analysis returned by `analyzeStyle` (the
`StyleAnalysisResponse` of types.ts, with every scalar field always set by
the merge). -/
structure StyleAnalysisResponse where
  artisticStyle : String
  visualTechnique : String
  colorPalette : List String
  moodKeywords : List String
  suggestedName : String
  reasoning : String
  embedding : Option (List Q)
deriving DecidableEq, Repr

/-- JavaScript `o || fallback` on an optional string: the external value
wins exactly when it is present and non-empty. -/
def jsOrString (o : Option String) (fallback : String) : String :=
  match o with
  | some s => if s = "" then fallback else s
  | none => fallback

/-- JavaScript `o && o.length ? o : fallback` on an optional array: the
external value wins exactly when it is present and non-empty. -/
def jsOrNonemptyList (o : Option (List String)) (fallback : List String) : List String :=
  match o with
  | some l => if l.isEmpty then fallback else l
  | none => fallback

/-- The per-field merge of `analyzeStyle` (fluxService.ts lines 367-372 and
384-392). -/
def mergeStyle (vlm : VlmPartial) (palette moodFallback : List String)
    (dateStr : String) (embedding : Option (List Q)) : StyleAnalysisResponse :=
  { colorPalette := jsOrNonemptyList vlm.colorPalette palette
    moodKeywords := jsOrNonemptyList vlm.moodKeywords moodFallback
    suggestedName := jsOrString vlm.suggestedName ("Custom Style " ++ dateStr)
    artisticStyle := jsOrString vlm.artisticStyle "Custom"
    visualTechnique := jsOrString vlm.visualTechnique "Reference-guided"
    reasoning := jsOrString vlm.reasoning
      "Extracted a dominant palette and inferred basic mood from reference images."
    embedding := embedding }

/-- The collage value produced by `createReferenceCollage`: a displayable
data URL and the encoded bytes. -/
structure Collage where
  dataUrl : String
  blob : List Nat
deriving DecidableEq, Repr

/-- Model of `analyzeStyle` (fluxService.ts lines 340-393).  The three
effectful stages (collage build, VLM style extraction, embedding
extraction) are passed in as `Except`-valued outcomes; an `Except.error`
models the stage throwing.  Exactly as in the source, a collage failure
leaves `collage = null`, a VLM failure (or missing collage) leaves the
partial result empty, and an embedding failure (or missing collage) leaves
the embedding undefined; the date string parametrizes
`new Date().toLocaleDateString()`. -/
def analyzeStyle (images : List (List Nat)) (dateStr : String)
    (collageStage : Except String Collage)
    (vlmStage : String → Except String VlmPartial)
    (embedStage : List Nat → Except String (List Q)) : StyleAnalysisResponse :=
  let palette := extractDominantPalette images 5
  let moodFallback := inferMoodKeywords palette
  let collage : Option Collage :=
    match collageStage with
    | .ok c => some c
    | .error _ => none
  let vlm : VlmPartial :=
    match collage with
    | some c =>
      (match vlmStage c.dataUrl with
       | .ok v => v
       | .error _ => {})
    | none => {}
  let embedding : Option (List Q) :=
    match collage with
    | some c =>
      (match embedStage c.blob with
       | .ok e => some e
       | .error _ => none)
    | none => none
  mergeStyle vlm palette moodFallback dateStr embedding

/-! Prompt Fusion (`performReasoning`, fluxService.ts lines 395-418, and
`fusePrompt` of the compatibility shim). -/

/-- The loosely-typed style object handed to `performReasoning`; each field
access in the source tolerates an absent field. -/
structure StyleData where
  palette : Option (List String) := none
  colorPalette : Option (List String) := none
  moods : Option (List String) := none
  moodKeywords : Option (List String) := none
  visualTechnique : Option String := none
deriving DecidableEq, Repr

/-- JavaScript `x?.f || x?.g || []`: an empty array is truthy, so a present
empty list is kept. -/
def jsOrField (a b : Option (List String)) : List String :=
  match a with
  | some l => l
  | none =>
    match b with
    | some l => l
    | none => []

/-- Model of `clamp` (fluxService.ts line 45): `Math.max(min, Math.min(max, n))`. -/
def clamp (n lo hi : Q) : Q := Q.max2 lo (Q.min2 hi n)

/-- Model of `performReasoning` (fluxService.ts lines 395-418).  Note the
final `.trim()` applied to the whole template string. -/
def performReasoning (userPrompt : String) (styleData : StyleData) (intensity : Q) : String :=
  let safeIntensity := clamp intensity (Q.ofInt 0) (Q.ofInt 1)
  let palette := jsOrField styleData.palette styleData.colorPalette
  let moods := jsOrField styleData.moods styleData.moodKeywords
  let technique := styleData.visualTechnique.getD ""
  if Q.lt safeIntensity (Q.frac 15 100) then userPrompt
  else
    let styleHint :=
      sjoin " "
        (([if technique = "" then "" else "Technique: " ++ technique ++ ".",
           if moods.isEmpty then "" else "Mood: " ++ sjoin ", " moods ++ ".",
           if palette.isEmpty then ""
           else "Palette: " ++ sjoin ", " (palette.take 5) ++ "."]).filter
          (fun s => s ≠ ""))
    let strength :=
      if Q.le (Q.frac 8 10) safeIntensity then "strict"
      else if Q.le (Q.frac 4 10) safeIntensity then "balanced" else "subtle"
    jsTrim (userPrompt ++ "\n\n" ++ "Style guidance (" ++ strength ++ ", " ++
      toString (Q.jsRound (Q.mul safeIntensity (Q.ofNat 100))) ++ "%): " ++ styleHint)

/-- Model of `fusePrompt` from the compatibility shim: it delegates to
`performReasoning` unchanged. -/
def fusePrompt (userPrompt : String) (styleData : StyleData) (intensity : Q) : String :=
  performReasoning userPrompt styleData intensity

/-! Forwarding proxy (`proxyHf` of the node server). -/

/-- The parts of an incoming HTTP request that `proxyHf` inspects. -/
structure HttpRequest where
  method : String
  path : String
  search : String
  contentType : Option String
  accept : Option String
  body : List Nat
deriving DecidableEq, Repr

/-- What `proxyHf` does with a request: answer directly, or forward to an
upstream target with the given headers and optional body. -/
inductive ProxyAction where
  | respond (status : Nat) (headers : List (String × String)) (body : Option String)
  | forward (target : String) (method : String) (headers : List (String × String))
      (body : Option (List Nat))
deriving DecidableEq, Repr

/-- The CORS headers attached to a preflight response. -/
def corsHeaders : List (String × String) :=
  [("Access-Control-Allow-Origin", "*"),
   ("Access-Control-Allow-Methods", "GET,POST,PUT,PATCH,DELETE,OPTIONS"),
   ("Access-Control-Allow-Headers", "Content-Type, Authorization")]

/-- JavaScript `a || b` on optional environment strings (empty is falsy). -/
def jsOrOpt (a : Option String) (b : Option String) : Option String :=
  match a with
  | some s => if s = "" then b else some s
  | none => b

/-- Resolution of the server-side credential:
`process.env.HF_TOKEN || process.env.HUGGINGFACE_TOKEN || process.env.VITE_HF_TOKEN`,
collapsed to the empty string when all are unset or empty. -/
def resolveToken (hfToken huggingfaceToken viteHfToken : Option String) : String :=
  (jsOrOpt hfToken (jsOrOpt huggingfaceToken viteHfToken)).getD ""

/-- The outgoing headers built by `proxyHf`: the bearer credential plus the
relayed content type and accept headers when present. -/
def forwardHeaders (hfToken : String) (req : HttpRequest) : List (String × String) :=
  [("Authorization", "Bearer " ++ hfToken)] ++
    (match req.contentType with
     | some ct => [("Content-Type", ct)]
     | none => []) ++
    (match req.accept with
     | some a => [("Accept", a)]
     | none => [])

/-- The forwarded body: none for GET and HEAD, the raw request body otherwise. -/
def forwardBody (req : HttpRequest) : Option (List Nat) :=
  if req.method = "GET" || req.method = "HEAD" then none else some req.body

/-- Model of `proxyHf` (the node server): preflight short-circuit, missing
credential check, then routing on the two known route shapes. -/
def proxyHf (hfToken : String) (req : HttpRequest) : ProxyAction :=
  if req.method = "OPTIONS" then .respond 204 corsHeaders none
  else if hfToken = "" then
    .respond 500 [("Content-Type", "application/json")]
      (some "\x7b\"error\":\"Missing HF_TOKEN on server\"\x7d")
  else if jsStartsWith req.path "/api/hf/chat/completions" then
    .forward ("https://router.huggingface.co/v1/chat/completions" ++ req.search)
      req.method (forwardHeaders hfToken req) (forwardBody req)
  else if jsStartsWith req.path "/api/hf/models/" then
    let rest := jsSliceFrom req.path ("/api/hf/models/".length)
    .forward ("https://router.huggingface.co/models/" ++ rest ++ req.search)
      req.method (forwardHeaders hfToken req) (forwardBody req)
  else
    .respond 404 [("Content-Type", "application/json")]
      (some "\x7b\"error\":\"Unknown HF proxy route\"\x7d")

/-! Style Profiles (types.ts, `handleStyleAnalyzed` of App.tsx, and
`handleSave` / `handleRevert` of StyleEditor.tsx). -/

/-- The snapshot payload: every profile field except `id`, `createdAt`,
`version` and `history` (the `Omit` of types.ts). -/
structure SnapshotData where
  name : String
  description : String
  visualTechnique : String
  palette : List String
  moods : List String
  referenceImages : List String
  embedding : Option (List Q)
  reasoning : Option String
deriving DecidableEq, Repr

/-- One history entry of a Style Profile. -/
structure StyleSnapshot where
  version : Nat
  timestamp : Nat
  changeLog : String
  data : SnapshotData
deriving DecidableEq, Repr

/-- A persisted Style Profile (types.ts). -/
structure StyleProfile where
  id : String
  name : String
  description : String
  visualTechnique : String
  palette : List String
  moods : List String
  referenceImages : List String
  createdAt : Nat
  embedding : Option (List Q)
  reasoning : Option String
  version : Nat
  history : List StyleSnapshot
deriving DecidableEq, Repr

/-- The snapshot payload of a profile's current state, as both `handleSave`
and `handleRevert` capture it before changing anything. -/
def snapshotDataOf (p : StyleProfile) : SnapshotData :=
  { name := p.name
    description := p.description
    visualTechnique := p.visualTechnique
    palette := p.palette
    moods := p.moods
    referenceImages := p.referenceImages
    embedding := p.embedding
    reasoning := p.reasoning }

/-- Model of `handleSave` (StyleEditor.tsx lines 22-52): snapshot the
current state, bump the version, prepend the snapshot, and apply the edited
fields. -/
def handleSave (p : StyleProfile) (name description technique : String)
    (palette moods : List String) (now : Nat) : StyleProfile :=
  let snapshot : StyleSnapshot :=
    { version := p.version
      timestamp := now
      changeLog := "Updated parameters manually"
      data := snapshotDataOf p }
  { p with
    version := p.version + 1
    history := snapshot :: p.history
    name := name
    description := description
    visualTechnique := technique
    palette := palette
    moods := moods }

/-- Model of `handleRevert` (StyleEditor.tsx lines 54-81): snapshot the
current state, bump the version, prepend the snapshot, and restore every
data field from the chosen snapshot (the spread of `snapshot.data` comes
last, so it also restores `referenceImages`, `embedding` and `reasoning`). -/
def handleRevert (p : StyleProfile) (snap : StyleSnapshot) (now : Nat) : StyleProfile :=
  let currentSnapshot : StyleSnapshot :=
    { version := p.version
      timestamp := now
      changeLog := "Reverted to v" ++ toString snap.version
      data := snapshotDataOf p }
  { p with
    version := p.version + 1
    history := currentSnapshot :: p.history
    name := snap.data.name
    description := snap.data.description
    visualTechnique := snap.data.visualTechnique
    palette := snap.data.palette
    moods := snap.data.moods
    referenceImages := snap.data.referenceImages
    embedding := snap.data.embedding
    reasoning := snap.data.reasoning }

/-- Model of `handleStyleAnalyzed` (App.tsx lines 45-59): a fresh profile is
created at version 1 with empty history. -/
def createProfile (analysis : StyleAnalysisResponse) (images : List String)
    (id : String) (now : Nat) : StyleProfile :=
  { id := id
    name := analysis.suggestedName
    description := analysis.artisticStyle
    visualTechnique := analysis.visualTechnique
    palette := analysis.colorPalette
    moods := analysis.moodKeywords
    referenceImages := images
    createdAt := now
    embedding := analysis.embedding
    reasoning := some analysis.reasoning
    version := 1
    history := [] }

/-- A committed profile mutation: a manual edit or a revert to a snapshot. -/
inductive StyleEditOp where
  | save (name description technique : String) (palette moods : List String) (now : Nat)
  | revert (snap : StyleSnapshot) (now : Nat)
deriving DecidableEq, Repr

/-- Apply one committed mutation. -/
def applyEditOp (p : StyleProfile) : StyleEditOp → StyleProfile
  | .save n d t pal m now => handleSave p n d t pal m now
  | .revert s now => handleRevert p s now

/-- The snapshot of the pre-change state that the mutation prepends. -/
def preSnapshot (p : StyleProfile) : StyleEditOp → StyleSnapshot
  | .save _ _ _ _ _ now =>
    { version := p.version
      timestamp := now
      changeLog := "Updated parameters manually"
      data := snapshotDataOf p }
  | .revert s now =>
    { version := p.version
      timestamp := now
      changeLog := "Reverted to v" ++ toString s.version
      data := snapshotDataOf p }

/-- Apply a sequence of committed mutations, oldest first. -/
def applyEditOps (p : StyleProfile) (ops : List StyleEditOp) : StyleProfile :=
  ops.foldl applyEditOp p

/-- The history entries contributed by a sequence of mutations, most recent
first: each mutation's pre-change snapshot, later mutations in front. -/
def editTrace (p : StyleProfile) : List StyleEditOp → List StyleSnapshot
  | [] => []
  | op :: ops => editTrace (applyEditOp p op) ops ++ [preSnapshot p op]

/-- Recognizer for a lowercase `#rrggbb` color string. -/
def isLowerHexColor (s : String) : Bool :=
  match s.data with
  | '#' :: rest => decide (rest.length = 6) && rest.all isLowerHexDigit
  | _ => false

/-- All fields of a merged style analysis except the embedding (used to
state that the embedding stage cannot influence the other fields). -/
def nonEmbedding (r : StyleAnalysisResponse) :
    String × String × List String × List String × String × String :=
  (r.artisticStyle, r.visualTechnique, r.colorPalette, r.moodKeywords,
   r.suggestedName, r.reasoning)

/-- Specification-side restatement of the mood heuristic over exact
rationals: channel-wise average of the decoded palette, perceptual
brightness `(0.2126 R + 0.7152 G + 0.0722 B) / 255`, chroma
`(max - min) / 255`, with the thresholds 0.35 / 0.7 / 0.35 of the claim.
To be compared with `inferMoodKeywords` on decodable palettes. -/
def moodKeywordsSpec (rs : List (Int × Int × Int)) : List String :=
  let n : ℚ := (rs.length : ℚ)
  let ar : ℚ := (((rs.map (fun t => t.1)).sum : Int) : ℚ) / n
  let ag : ℚ := (((rs.map (fun t => t.2.1)).sum : Int) : ℚ) / n
  let ab : ℚ := (((rs.map (fun t => t.2.2)).sum : Int) : ℚ) / n
  let bright : ℚ := (2126 / 10000 * ar + 7152 / 10000 * ag + 722 / 10000 * ab) / 255
  let chroma : ℚ := (max (max ar ag) ab - min (min ar ag) ab) / 255
  [if bright < 35 / 100 then "moody" else if 7 / 10 < bright then "airy" else "balanced",
   if 35 / 100 < chroma then "vibrant" else "muted",
   "stylized"]

/-! Theorems. -/

theorem Q.den_max2_pos {a b : Q} (ha : 0 < a.den) (hb : 0 < b.den) :
    0 < (Q.max2 a b).den := by
  unfold Q.max2
  split
  · exact hb
  · exact ha

theorem Q.den_min2_pos {a b : Q} (ha : 0 < a.den) (hb : 0 < b.den) :
    0 < (Q.min2 a b).den := by
  unfold Q.min2
  split
  · exact hb
  · exact ha

theorem Q.den_clamp_pos {n lo hi : Q} (hn : 0 < n.den) (hlo : 0 < lo.den)
    (hhi : 0 < hi.den) : 0 < (clamp n lo hi).den :=
  Q.den_max2_pos hlo (Q.den_min2_pos hhi hn)

/-- C10: the edit operation (`handleSave`) leaves `id`, `createdAt`,
`referenceImages`, `embedding` and `reasoning` unchanged (so only the name,
description, visual technique, palette, moods, version and history are
replaced), and the revert operation (`handleRevert`) leaves `id` and
`createdAt` unchanged. -/
theorem handleSave_handleRevert_frame :
    (∀ (p : StyleProfile) (name description technique : String)
       (palette moods : List String) (now : Nat),
      (handleSave p name description technique palette moods now).id = p.id ∧
      (handleSave p name description technique palette moods now).createdAt = p.createdAt ∧
      (handleSave p name description technique palette moods now).referenceImages
        = p.referenceImages ∧
      (handleSave p name description technique palette moods now).embedding = p.embedding ∧
      (handleSave p name description technique palette moods now).reasoning = p.reasoning) ∧
    (∀ (p : StyleProfile) (snap : StyleSnapshot) (now : Nat),
      (handleRevert p snap now).id = p.id ∧
      (handleRevert p snap now).createdAt = p.createdAt) := by
  exact ⟨fun p n d t pal m now => ⟨rfl, rfl, rfl, rfl, rfl⟩,
    fun p s now => ⟨rfl, rfl⟩⟩

/-- C3: a profile is created at version 1 with empty history; every
committed edit or revert bumps the version by exactly one and prepends a
snapshot of the pre-change state carrying the pre-change version number;
hence after any sequence of edits and reverts the history consists of all
prior states, most recent first, on top of the original history. -/
theorem styleProfile_version_history_invariant :
    (∀ (a : StyleAnalysisResponse) (imgs : List String) (id : String) (now : Nat),
      (createProfile a imgs id now).version = 1 ∧
      (createProfile a imgs id now).history = []) ∧
    (∀ (p : StyleProfile) (op : StyleEditOp),
      (applyEditOp p op).version = p.version + 1 ∧
      (applyEditOp p op).history = preSnapshot p op :: p.history ∧
      (preSnapshot p op).version = p.version ∧
      (preSnapshot p op).data = snapshotDataOf p) ∧
    (∀ (p : StyleProfile) (ops : List StyleEditOp),
      (applyEditOps p ops).version = p.version + ops.length ∧
      (applyEditOps p ops).history = editTrace p ops ++ p.history) := by
  refine ⟨fun a imgs id now => ⟨rfl, rfl⟩, fun p op => ?_, fun p ops => ?_⟩
  · cases op with
    | save n d t pal m now => exact ⟨rfl, rfl, rfl, rfl⟩
    | revert s now => exact ⟨rfl, rfl, rfl, rfl⟩
  · induction ops generalizing p with
    | nil => simp [applyEditOps, editTrace]
    | cons op ops ih =>
      have hstep : applyEditOps p (op :: ops) = applyEditOps (applyEditOp p op) ops := rfl
      have hv : (applyEditOp p op).version = p.version + 1 := by
        cases op with
        | save n d t pal m now => rfl
        | revert s now => rfl
      have hh : (applyEditOp p op).history = preSnapshot p op :: p.history := by
        cases op with
        | save n d t pal m now => rfl
        | revert s now => rfl
      obtain ⟨ihv, ihh⟩ := ih (applyEditOp p op)
      constructor
      · rw [hstep, ihv, hv, List.length_cons]
        omega
      · rw [hstep, ihh, hh, editTrace, List.append_assoc]
        rfl

/-- C6: quantizing a buffer consisting entirely of the solid color #3366cc
with alpha 255 yields a palette whose first entry is the bucket-center
color #3868c8, which decodes to a color within 8 of #3366cc in every
channel. -/
theorem quantize_roundtrip_solid :
    (extractDominantPalette
      [[51, 102, 204, 255, 51, 102, 204, 255, 51, 102, 204, 255, 51, 102, 204, 255]]
      5).head? = some "#3868c8" ∧
    entryRGB "#3366cc" = some (51, 102, 204) ∧
    entryRGB "#3868c8" = some (56, 104, 200) ∧
    ((56 : Int) - 51 ≤ 8 ∧ (51 : Int) - 56 ≤ 8 ∧ (104 : Int) - 102 ≤ 8 ∧
     (102 : Int) - 104 ≤ 8 ∧ (200 : Int) - 204 ≤ 8 ∧ (204 : Int) - 200 ≤ 8) := by
  refine ⟨by decide, by decide, by decide, by decide⟩

theorem chat_models_routes_disjoint (s : String) :
    jsStartsWith s "/api/hf/models/" = true →
    jsStartsWith s "/api/hf/chat/completions" = false := by
  intro hm
  by_contra hc
  have hc' : jsStartsWith s "/api/hf/chat/completions" = true := by
    cases h : jsStartsWith s "/api/hf/chat/completions" with
    | false => exact absurd h hc
    | true => rfl
  simp only [jsStartsWith, decide_eq_true_eq] at hm hc'
  norm_num at hm hc'
  have h2 : List.take 15 (List.take 24 s.data) = List.take 15 s.data := by
    rw [List.take_take]
    norm_num
  rw [hc'] at h2
  rw [hm] at h2
  exact absurd h2 (by decide)

/-- C9: the proxy answers a preflight OPTIONS request with 204, CORS
headers and no body; without a resolved server-side credential every other
request gets a 500 JSON error; with a credential the two known route shapes
are forwarded upstream with the credential attached as a bearer token, and
any other route gets a 404 JSON error.  The resolved credential is empty
exactly when all three environment variables are unset or empty, and every
response the proxy answers directly is one of three fixed
credential-independent responses, so the credential is never visible in
them. -/
theorem proxyHf_boundary (tok : String) (req : HttpRequest) :
    (req.method = "OPTIONS" → proxyHf tok req = .respond 204 corsHeaders none) ∧
    (req.method ≠ "OPTIONS" → tok = "" →
      proxyHf tok req = .respond 500 [("Content-Type", "application/json")]
        (some "\x7b\"error\":\"Missing HF_TOKEN on server\"\x7d")) ∧
    (req.method ≠ "OPTIONS" → tok ≠ "" →
      jsStartsWith req.path "/api/hf/chat/completions" = true →
      proxyHf tok req =
        .forward ("https://router.huggingface.co/v1/chat/completions" ++ req.search)
          req.method (forwardHeaders tok req) (forwardBody req) ∧
      ("Authorization", "Bearer " ++ tok) ∈ forwardHeaders tok req) ∧
    (req.method ≠ "OPTIONS" → tok ≠ "" →
      jsStartsWith req.path "/api/hf/models/" = true →
      proxyHf tok req =
        .forward ("https://router.huggingface.co/models/" ++
            jsSliceFrom req.path ("/api/hf/models/".length) ++ req.search)
          req.method (forwardHeaders tok req) (forwardBody req) ∧
      ("Authorization", "Bearer " ++ tok) ∈ forwardHeaders tok req) ∧
    (req.method ≠ "OPTIONS" → tok ≠ "" →
      jsStartsWith req.path "/api/hf/chat/completions" = false →
      jsStartsWith req.path "/api/hf/models/" = false →
      proxyHf tok req = .respond 404 [("Content-Type", "application/json")]
        (some "\x7b\"error\":\"Unknown HF proxy route\"\x7d")) ∧
    (∀ a b c : Option String,
      resolveToken a b c = "" ↔
        ((a = none ∨ a = some "") ∧ (b = none ∨ b = some "") ∧ (c = none ∨ c = some ""))) ∧
    (∀ (status : Nat) (headers : List (String × String)) (body : Option String),
      proxyHf tok req = .respond status headers body →
      ((status = 204 ∧ headers = corsHeaders ∧ body = none) ∨
       (status = 500 ∧ headers = [("Content-Type", "application/json")] ∧
         body = some "\x7b\"error\":\"Missing HF_TOKEN on server\"\x7d") ∨
       (status = 404 ∧ headers = [("Content-Type", "application/json")] ∧
         body = some "\x7b\"error\":\"Unknown HF proxy route\"\x7d"))) := by
  refine ⟨?_, ?_, ?_, ?_, ?_, ?_, ?_⟩
  · intro h
    simp [proxyHf, h]
  · intro hm ht
    simp [proxyHf, hm, ht]
  · intro hm ht hc
    refine ⟨?_, by simp [forwardHeaders]⟩
    simp [proxyHf, hm, ht, hc]
  · intro hm ht hmod
    refine ⟨?_, by simp [forwardHeaders]⟩
    have hc := chat_models_routes_disjoint req.path hmod
    simp [proxyHf, hm, ht, hc, hmod]
  · intro hm ht hc hmod
    simp [proxyHf, hm, ht, hc, hmod]
  · intro a b c
    rcases a with _ | s
    · rcases b with _ | t
      · rcases c with _ | u
        · simp [resolveToken, jsOrOpt]
        · by_cases hu : u = "" <;> simp [resolveToken, jsOrOpt, hu]
      · rcases c with _ | u
        · by_cases ht : t = "" <;> simp [resolveToken, jsOrOpt, ht]
        · by_cases ht : t = "" <;> by_cases hu : u = "" <;>
            simp [resolveToken, jsOrOpt, ht, hu]
    · rcases b with _ | t
      · rcases c with _ | u
        · by_cases hs : s = "" <;> simp [resolveToken, jsOrOpt, hs]
        · by_cases hs : s = "" <;> by_cases hu : u = "" <;>
            simp [resolveToken, jsOrOpt, hs, hu]
      · rcases c with _ | u
        · by_cases hs : s = "" <;> by_cases ht : t = "" <;>
            simp [resolveToken, jsOrOpt, hs, ht]
        · by_cases hs : s = "" <;> by_cases ht : t = "" <;> by_cases hu : u = "" <;>
            simp [resolveToken, jsOrOpt, hs, ht, hu]
  · intro status headers body h
    unfold proxyHf at h
    split_ifs at h <;>
      first
        | exact ProxyAction.noConfusion h
        | (injection h with e1 e2 e3
           exact Or.inl ⟨e1.symm, e2.symm, e3.symm⟩)
        | (injection h with e1 e2 e3
           exact Or.inr (Or.inl ⟨e1.symm, e2.symm, e3.symm⟩))
        | (injection h with e1 e2 e3
           exact Or.inr (Or.inr ⟨e1.symm, e2.symm, e3.symm⟩))

/-- Witness for C9: the preflight response and the forwarding of
`/api/hf/models/foo/bar` at concrete inputs. -/
theorem proxyHf_boundary_witness :
    proxyHf "tok"
      { method := "OPTIONS", path := "/x", search := "", contentType := none,
        accept := none, body := [] } = .respond 204 corsHeaders none ∧
    proxyHf "tok"
      { method := "POST", path := "/api/hf/models/foo/bar", search := "",
        contentType := some "application/json", accept := none, body := [7] } =
      .forward "https://router.huggingface.co/models/foo/bar" "POST"
        [("Authorization", "Bearer tok"), ("Content-Type", "application/json")]
        (some [7]) := by
  constructor
  · exact (proxyHf_boundary "tok"
      { method := "OPTIONS", path := "/x", search := "", contentType := none,
        accept := none, body := [] }).1 rfl
  · exact Eq.trans
      ((proxyHf_boundary "tok"
        { method := "POST", path := "/api/hf/models/foo/bar", search := "",
          contentType := some "application/json", accept := none, body := [7] }).2.2.2.1
        (by decide) (by decide) (by decide)).1
      (by decide)

/-- C2: every exception of the collage, VLM or embedding stage is absorbed
inside `analyzeStyle`: a collage failure forces the VLM result to empty and
the embedding to undefined but keeps the deterministic fallback fields; a
VLM failure forces only the VLM-derived fields to their fallbacks; an
embedding failure forces only the embedding to undefined; and the
non-embedding fields never depend on the embedding stage's outcome (nor the
embedding on the VLM stage's outcome), so a complete merged result is
always returned. -/
theorem analyzeStyle_fault_isolation (images : List (List Nat)) (dateStr : String)
    (collageStage : Except String Collage)
    (vlmStage : String → Except String VlmPartial)
    (embedStage : List Nat → Except String (List Q)) :
    (∀ e, collageStage = .error e →
      analyzeStyle images dateStr collageStage vlmStage embedStage =
        mergeStyle {} (extractDominantPalette images 5)
          (inferMoodKeywords (extractDominantPalette images 5)) dateStr none) ∧
    (∀ c e, collageStage = .ok c → vlmStage c.dataUrl = .error e →
      analyzeStyle images dateStr collageStage vlmStage embedStage =
        mergeStyle {} (extractDominantPalette images 5)
          (inferMoodKeywords (extractDominantPalette images 5)) dateStr
          (match embedStage c.blob with
           | .ok v => some v
           | .error _ => none)) ∧
    (∀ c e, collageStage = .ok c → embedStage c.blob = .error e →
      (analyzeStyle images dateStr collageStage vlmStage embedStage).embedding = none) ∧
    (∀ embed1 embed2,
      nonEmbedding (analyzeStyle images dateStr collageStage vlmStage embed1) =
        nonEmbedding (analyzeStyle images dateStr collageStage vlmStage embed2)) ∧
    (∀ vlm1 vlm2,
      (analyzeStyle images dateStr collageStage vlm1 embedStage).embedding =
        (analyzeStyle images dateStr collageStage vlm2 embedStage).embedding) ∧
    (∀ palette moodFallback emb,
      mergeStyle {} palette moodFallback dateStr emb =
        { artisticStyle := "Custom"
          visualTechnique := "Reference-guided"
          colorPalette := palette
          moodKeywords := moodFallback
          suggestedName := "Custom Style " ++ dateStr
          reasoning :=
            "Extracted a dominant palette and inferred basic mood from reference images."
          embedding := emb }) := by
  refine ⟨?_, ?_, ?_, ?_, ?_, ?_⟩
  · intro e he
    subst he
    rfl
  · intro c e hc hv
    subst hc
    simp only [analyzeStyle, hv]
  · intro c e hc hemb
    subst hc
    simp only [analyzeStyle, hemb]
    cases vlmStage c.dataUrl <;> rfl
  · intro embed1 embed2
    cases collageStage with
    | error e => rfl
    | ok c => cases vlmStage c.dataUrl <;> rfl
  · intro vlm1 vlm2
    cases collageStage with
    | error e => rfl
    | ok c => cases vlm1 c.dataUrl <;> cases vlm2 c.dataUrl <;> rfl
  · intro palette moodFallback emb
    rfl

/-- Witness for C2: with a failing collage stage the call still returns the
fully merged fallback result. -/
theorem analyzeStyle_fault_isolation_witness :
    analyzeStyle [] "10/11/2026" (.error "collage failed")
      (fun _ => .error "vlm failed") (fun _ => .error "embed failed") =
      mergeStyle {} (extractDominantPalette [] 5)
        (inferMoodKeywords (extractDominantPalette [] 5)) "10/11/2026" none :=
  (analyzeStyle_fault_isolation [] "10/11/2026" (.error "collage failed")
      (fun _ => .error "vlm failed") (fun _ => .error "embed failed")).1
    "collage failed" rfl

/-- C1: in the merged style analysis each external field wins exactly when
it is present and non-empty — the palette after dropping entries that do
not normalize to six hex digits, the mood keywords after truncation to six
entries — and otherwise the deterministic fallback (palette, moods) or the
fixed literal defaults (artistic style, visual technique, date-bearing
suggested name, explanatory reasoning sentence) are used; in particular an
external palette of four valid entries and one invalid entry yields exactly
the four valid entries, not the fallback palette. -/
theorem mergeStyle_precedence (parsed : VlmPartial) (palette moodFallback : List String)
    (dateStr : String) (embedding : Option (List Q)) :
    (parsed.colorPalette = none →
      (mergeStyle (vlmProcess parsed) palette moodFallback dateStr embedding).colorPalette
        = palette) ∧
    (∀ l, parsed.colorPalette = some l → l.filterMap normalizeHex = [] →
      (mergeStyle (vlmProcess parsed) palette moodFallback dateStr embedding).colorPalette
        = palette) ∧
    (∀ l, parsed.colorPalette = some l → l.filterMap normalizeHex ≠ [] →
      (mergeStyle (vlmProcess parsed) palette moodFallback dateStr embedding).colorPalette
        = l.filterMap normalizeHex) ∧
    (parsed.moodKeywords = none →
      (mergeStyle (vlmProcess parsed) palette moodFallback dateStr embedding).moodKeywords
        = moodFallback) ∧
    (∀ l, parsed.moodKeywords = some l → l.take 6 = [] →
      (mergeStyle (vlmProcess parsed) palette moodFallback dateStr embedding).moodKeywords
        = moodFallback) ∧
    (∀ l, parsed.moodKeywords = some l → l.take 6 ≠ [] →
      (mergeStyle (vlmProcess parsed) palette moodFallback dateStr embedding).moodKeywords
        = l.take 6) ∧
    (∀ s, parsed.artisticStyle = some s → s ≠ "" →
      (mergeStyle (vlmProcess parsed) palette moodFallback dateStr embedding).artisticStyle
        = s) ∧
    ((parsed.artisticStyle = none ∨ parsed.artisticStyle = some "") →
      (mergeStyle (vlmProcess parsed) palette moodFallback dateStr embedding).artisticStyle
        = "Custom") ∧
    (∀ s, parsed.visualTechnique = some s → s ≠ "" →
      (mergeStyle (vlmProcess parsed) palette moodFallback dateStr embedding).visualTechnique
        = s) ∧
    ((parsed.visualTechnique = none ∨ parsed.visualTechnique = some "") →
      (mergeStyle (vlmProcess parsed) palette moodFallback dateStr embedding).visualTechnique
        = "Reference-guided") ∧
    (∀ s, parsed.suggestedName = some s → s ≠ "" →
      (mergeStyle (vlmProcess parsed) palette moodFallback dateStr embedding).suggestedName
        = s) ∧
    ((parsed.suggestedName = none ∨ parsed.suggestedName = some "") →
      (mergeStyle (vlmProcess parsed) palette moodFallback dateStr embedding).suggestedName
        = "Custom Style " ++ dateStr) ∧
    (∀ s, parsed.reasoning = some s → s ≠ "" →
      (mergeStyle (vlmProcess parsed) palette moodFallback dateStr embedding).reasoning
        = s) ∧
    ((parsed.reasoning = none ∨ parsed.reasoning = some "") →
      (mergeStyle (vlmProcess parsed) palette moodFallback dateStr embedding).reasoning
        = "Extracted a dominant palette and inferred basic mood from reference images.") ∧
    ((mergeStyle
        (vlmProcess { colorPalette := some ["#112233", "zzzzzz", "0x445566", "778899", "#AABBCC"] })
        ["#0f0f0f"] ["muted"] "10/11/2026" none).colorPalette
      = ["#112233", "#445566", "#778899", "#aabbcc"] ∧
     ["#112233", "#445566", "#778899", "#aabbcc"] ≠ ["#0f0f0f"]) := by
  refine ⟨?_, ?_, ?_, ?_, ?_, ?_, ?_, ?_, ?_, ?_, ?_, ?_, ?_, ?_, by decide⟩
  · intro h
    simp [mergeStyle, vlmProcess, jsOrNonemptyList, h]
  · intro l hl hemp
    simp [mergeStyle, vlmProcess, jsOrNonemptyList, hl, hemp]
  · intro l hl hne
    simp [mergeStyle, vlmProcess, jsOrNonemptyList, hl, List.isEmpty_iff, hne]
  · intro h
    simp [mergeStyle, vlmProcess, jsOrNonemptyList, h]
  · intro l hl hemp
    simp [mergeStyle, vlmProcess, jsOrNonemptyList, hl, hemp]
  · intro l hl hne
    simp [mergeStyle, vlmProcess, jsOrNonemptyList, hl, List.isEmpty_iff, hne]
  · intro s hs hne
    simp [mergeStyle, vlmProcess, jsOrString, hs, hne]
  · intro h
    rcases h with h | h <;> simp [mergeStyle, vlmProcess, jsOrString, h]
  · intro s hs hne
    simp [mergeStyle, vlmProcess, jsOrString, hs, hne]
  · intro h
    rcases h with h | h <;> simp [mergeStyle, vlmProcess, jsOrString, h]
  · intro s hs hne
    simp [mergeStyle, vlmProcess, jsOrString, hs, hne]
  · intro h
    rcases h with h | h <;> simp [mergeStyle, vlmProcess, jsOrString, h]
  · intro s hs hne
    simp [mergeStyle, vlmProcess, jsOrString, hs, hne]
  · intro h
    rcases h with h | h <;> simp [mergeStyle, vlmProcess, jsOrString, h]

/-- Witness for C1: the four-valid-one-invalid palette example, through the
merge. -/
theorem mergeStyle_precedence_witness :
    (mergeStyle
      (vlmProcess { colorPalette := some ["#112233", "zzzzzz", "0x445566", "778899", "#AABBCC"] })
      ["#0f0f0f"] ["muted"] "10/11/2026" none).colorPalette
    = ["#112233", "#445566", "#778899", "#aabbcc"] :=
  Eq.trans
    ((mergeStyle_precedence
        { colorPalette := some ["#112233", "zzzzzz", "0x445566", "778899", "#AABBCC"] }
        ["#0f0f0f"] ["muted"] "10/11/2026" none).2.2.1
      ["#112233", "zzzzzz", "0x445566", "778899", "#AABBCC"] rfl (by decide))
    (by decide)

/-- C7: whenever the intensity clamped into [0,1] denotes a rational below
0.15, `performReasoning` (and hence `fusePrompt`, which delegates to it)
returns the user prompt exactly unchanged; in particular
`fusePrompt p style 0.1 = p`. -/
theorem performReasoning_below_threshold (userPrompt : String) (styleData : StyleData)
    (intensity : Q) (hden : 0 < intensity.den)
    (hlow : (clamp intensity (Q.ofInt 0) (Q.ofInt 1)).val < 15 / 100) :
    performReasoning userPrompt styleData intensity = userPrompt ∧
    fusePrompt userPrompt styleData intensity = userPrompt ∧
    ∀ p sd, fusePrompt p sd (Q.frac 1 10) = p := by
  have hclampden : 0 < (clamp intensity (Q.ofInt 0) (Q.ofInt 1)).den :=
    Q.den_clamp_pos hden (by decide) (by decide)
  have hval : (Q.frac 15 100).val = 15 / 100 := by
    rw [Q.val_frac]
    norm_num
  have hlt : Q.lt (clamp intensity (Q.ofInt 0) (Q.ofInt 1)) (Q.frac 15 100) = true := by
    rw [Q.lt_iff_val _ _ hclampden (by decide), hval]
    exact hlow
  have hmain : performReasoning userPrompt styleData intensity = userPrompt := by
    unfold performReasoning
    rw [if_pos hlt]
  refine ⟨hmain, hmain, fun p sd => ?_⟩
  unfold fusePrompt performReasoning
  rw [if_pos (by decide)]

/-- Witness for C7 at intensity 0.1. -/
theorem performReasoning_below_threshold_witness :
    performReasoning "a cat" {} (Q.frac 1 10) = "a cat" :=
  (performReasoning_below_threshold "a cat" {} (Q.frac 1 10) (by decide)
    (by
      have h : clamp (Q.frac 1 10) (Q.ofInt 0) (Q.ofInt 1) = Q.frac 1 10 := by decide
      rw [h, Q.val_frac]
      norm_num)).1

theorem Q.den_add_pos {a b : Q} (ha : 0 < a.den) (hb : 0 < b.den) :
    0 < (Q.add a b).den := Nat.mul_pos ha hb

theorem Q.den_sub_pos {a b : Q} (ha : 0 < a.den) (hb : 0 < b.den) :
    0 < (Q.sub a b).den := Nat.mul_pos ha hb

theorem Q.den_mul_pos {a b : Q} (ha : 0 < a.den) (hb : 0 < b.den) :
    0 < (Q.mul a b).den := Nat.mul_pos ha hb

theorem Q.den_divN_pos {a : Q} {n : Nat} (ha : 0 < a.den) (hn : 0 < n) :
    0 < (Q.divN a n).den := Nat.mul_pos ha hn

theorem jsAddI_some (a b : Int) : jsAddI (some a) (some b) = some (a + b) := rfl

theorem decodeEntry_of_entryRGB (s : String) (v : Int × Int × Int)
    (h : entryRGB s = some v) :
    decodeEntry s = ((some v.1 : Option Int), (some v.2.1 : Option Int),
      (some v.2.2 : Option Int)) := by
  unfold entryRGB at h
  rcases hd : decodeEntry s with ⟨x, y, z⟩
  rw [hd] at h
  cases x with
  | none => simp at h
  | some r =>
    cases y with
    | none => simp at h
    | some g =>
      cases z with
      | none => simp at h
      | some b =>
        simp only [Option.some.injEq] at h
        subst h
        rfl

theorem decodePalette_map (palette : List String) (rs : List (Int × Int × Int))
    (h : decodePalette palette = some rs) :
    palette.map decodeEntry =
      rs.map (fun t => ((some t.1 : Option Int), (some t.2.1 : Option Int),
        (some t.2.2 : Option Int))) ∧
    palette.length = rs.length := by
  induction palette generalizing rs with
  | nil =>
    simp only [decodePalette] at h
    cases h
    exact ⟨rfl, rfl⟩
  | cons s t ih =>
    simp only [decodePalette] at h
    cases he : entryRGB s with
    | none => rw [he] at h; exact absurd h (by simp)
    | some v =>
      rw [he] at h
      cases hd : decodePalette t with
      | none => rw [hd] at h; exact absurd h (by simp)
      | some vs =>
        rw [hd] at h
        simp only [Option.some.injEq] at h
        subst h
        obtain ⟨ihm, ihl⟩ := ih vs hd
        refine ⟨?_, by simp [ihl]⟩
        simp only [List.map_cons, ihm, List.cons.injEq, and_true]
        exact decodeEntry_of_entryRGB s v he

theorem sums_of_decoded_aux (rs : List (Int × Int × Int)) (a b c : Int) :
    (rs.map (fun t => ((some t.1 : Option Int), (some t.2.1 : Option Int),
        (some t.2.2 : Option Int)))).foldl
      (fun acc x => (jsAddI acc.1 x.1, jsAddI acc.2.1 x.2.1, jsAddI acc.2.2 x.2.2))
      (some a, some b, some c) =
    (some (a + (rs.map (fun t => t.1)).sum), some (b + (rs.map (fun t => t.2.1)).sum),
      some (c + (rs.map (fun t => t.2.2)).sum)) := by
  induction rs generalizing a b c with
  | nil => simp
  | cons t ts ih =>
    simp only [List.map_cons, List.foldl_cons, List.sum_cons, jsAddI_some]
    rw [ih]
    simp [add_assoc]

theorem sums_of_decoded (rs : List (Int × Int × Int)) :
    (rs.map (fun t => ((some t.1 : Option Int), (some t.2.1 : Option Int),
        (some t.2.2 : Option Int)))).foldl
      (fun acc x => (jsAddI acc.1 x.1, jsAddI acc.2.1 x.2.1, jsAddI acc.2.2 x.2.2))
      ((some 0 : Option Int), (some 0 : Option Int), (some 0 : Option Int)) =
    (some ((rs.map (fun t => t.1)).sum), some ((rs.map (fun t => t.2.1)).sum),
      some ((rs.map (fun t => t.2.2)).sum)) := by
  rw [sums_of_decoded_aux]
  simp

theorem ite_of_iff {α : Type} {b : Bool} {p : Prop} [Decidable p]
    (h : b = true ↔ p) (x y : α) : (if b then x else y) = (if p then x else y) := by
  by_cases hp : p
  · rw [if_pos (h.mpr hp), if_pos hp]
  · rw [if_neg (fun hb => hp (h.mp hb)), if_neg hp]

/-- C4: `inferMoodKeywords` always returns exactly 3 entries, returns the
fixed default triple exactly for the empty palette, and on every decodable
non-empty palette returns the brightness tag, the chroma tag and the
literal "stylized" in this order, with the tags given by the perceptual
brightness and chroma formulas over the channel-wise average color. -/
theorem inferMoodKeywords_spec :
    (∀ palette, (inferMoodKeywords palette).length = 3) ∧
    (∀ palette, inferMoodKeywords palette = ["balanced", "clean", "modern"] ↔ palette = []) ∧
    (∀ (palette : List String) (rs : List (Int × Int × Int)), palette ≠ [] →
      decodePalette palette = some rs →
      inferMoodKeywords palette = moodKeywordsSpec rs) := by
  refine ⟨?_, ?_, ?_⟩
  · intro palette
    cases palette with
    | nil => rfl
    | cons a t => rfl
  · intro palette
    constructor
    · intro h
      cases palette with
      | nil => rfl
      | cons a t =>
        exfalso
        have h3 : (["stylized"] : List String) = ["modern"] := congrArg (List.drop 2) h
        exact absurd h3 (by decide)
    · intro h
      subst h
      rfl
  · intro palette rs hne hdec
    obtain ⟨hmap, hlen⟩ := decodePalette_map palette rs hdec
    have hn : 0 < rs.length := by
      rcases palette with _ | ⟨a, t⟩
      · exact absurd rfl hne
      · rcases rs with _ | ⟨b, u⟩
        · simp at hlen
        · simp
    unfold inferMoodKeywords moodKeywordsSpec
    rw [if_neg hne]
    simp only [hmap, sums_of_decoded, List.length_map, Option.map_some', oMulQ, oAddQ,
      oSubQ, oMaxQ, oMinQ, oDivN, jsLtQ, jsGtQ]
    have htake : ∀ x y z : String, List.take 3 [x, y, z] = [x, y, z] := fun x y z => rfl
    rw [htake]
    refine congrArg₂ (fun a b => [a, b, ("stylized" : String)]) ?_ ?_
    · set sr := (rs.map (fun t => t.1)).sum with hsrdef
      set sg := (rs.map (fun t => t.2.1)).sum with hsgdef
      set sb := (rs.map (fun t => t.2.2)).sum with hsbdef
      set Bq := Q.divN (Q.add (Q.add
          (Q.mul (Q.frac 2126 10000) (Q.frac sr rs.length))
          (Q.mul (Q.frac 7152 10000) (Q.frac sg rs.length)))
          (Q.mul (Q.frac 722 10000) (Q.frac sb rs.length))) 255 with hBqdef
      have hd1 : 0 < (Q.mul (Q.frac 2126 10000) (Q.frac sr rs.length)).den :=
        Q.den_mul_pos (by decide) hn
      have hd2 : 0 < (Q.mul (Q.frac 7152 10000) (Q.frac sg rs.length)).den :=
        Q.den_mul_pos (by decide) hn
      have hd3 : 0 < (Q.mul (Q.frac 722 10000) (Q.frac sb rs.length)).den :=
        Q.den_mul_pos (by decide) hn
      have hBden : 0 < Bq.den := by
        rw [hBqdef]
        exact Q.den_divN_pos (Q.den_add_pos (Q.den_add_pos hd1 hd2) hd3) (by decide)
      have hBval : Bq.val =
          (2126 / 10000 * ((sr : ℚ) / (rs.length : ℚ)) +
            7152 / 10000 * ((sg : ℚ) / (rs.length : ℚ)) +
            722 / 10000 * ((sb : ℚ) / (rs.length : ℚ))) / 255 := by
        rw [hBqdef, Q.val_divN,
          Q.val_add _ _ (Q.den_add_pos hd1 hd2).ne' hd3.ne',
          Q.val_add _ _ hd1.ne' hd2.ne',
          Q.val_mul, Q.val_mul, Q.val_mul,
          Q.val_frac, Q.val_frac, Q.val_frac, Q.val_frac, Q.val_frac, Q.val_frac]
        push_cast
        ring
      have c35 : (Q.frac 35 100).val = 35 / 100 := by
        rw [Q.val_frac]
        norm_num
      have c70 : (Q.frac 7 10).val = 7 / 10 := by
        rw [Q.val_frac]
        norm_num
      have i1 : Q.lt Bq (Q.frac 35 100) = true ↔
          (2126 / 10000 * ((sr : ℚ) / (rs.length : ℚ)) +
            7152 / 10000 * ((sg : ℚ) / (rs.length : ℚ)) +
            722 / 10000 * ((sb : ℚ) / (rs.length : ℚ))) / 255 < 35 / 100 := by
        rw [Q.lt_iff_val _ _ hBden (by decide), hBval, c35]
      have i2 : Q.lt (Q.frac 7 10) Bq = true ↔
          7 / 10 < (2126 / 10000 * ((sr : ℚ) / (rs.length : ℚ)) +
            7152 / 10000 * ((sg : ℚ) / (rs.length : ℚ)) +
            722 / 10000 * ((sb : ℚ) / (rs.length : ℚ))) / 255 := by
        rw [Q.lt_iff_val _ _ (by decide) hBden, hBval, c70]
      rw [ite_of_iff i2 "airy" "balanced"]
      exact ite_of_iff i1 _ _
    · set sr := (rs.map (fun t => t.1)).sum with hsrdef
      set sg := (rs.map (fun t => t.2.1)).sum with hsgdef
      set sb := (rs.map (fun t => t.2.2)).sum with hsbdef
      set Cq := Q.divN (Q.sub
          (Q.max2 (Q.max2 (Q.frac sr rs.length) (Q.frac sg rs.length)) (Q.frac sb rs.length))
          (Q.min2 (Q.min2 (Q.frac sr rs.length) (Q.frac sg rs.length)) (Q.frac sb rs.length)))
          255 with hCqdef
      have hdmax : 0 < (Q.max2 (Q.max2 (Q.frac sr rs.length) (Q.frac sg rs.length))
          (Q.frac sb rs.length)).den :=
        Q.den_max2_pos (Q.den_max2_pos hn hn) hn
      have hdmin : 0 < (Q.min2 (Q.min2 (Q.frac sr rs.length) (Q.frac sg rs.length))
          (Q.frac sb rs.length)).den :=
        Q.den_min2_pos (Q.den_min2_pos hn hn) hn
      have hCden : 0 < Cq.den := by
        rw [hCqdef]
        exact Q.den_divN_pos (Q.den_sub_pos hdmax hdmin) (by decide)
      have hCval : Cq.val =
          (max (max ((sr : ℚ) / (rs.length : ℚ)) ((sg : ℚ) / (rs.length : ℚ)))
              ((sb : ℚ) / (rs.length : ℚ)) -
            min (min ((sr : ℚ) / (rs.length : ℚ)) ((sg : ℚ) / (rs.length : ℚ)))
              ((sb : ℚ) / (rs.length : ℚ))) / 255 := by
        rw [hCqdef, Q.val_divN,
          Q.val_sub _ _ hdmax.ne' hdmin.ne',
          Q.val_max2 _ _ (Q.den_max2_pos hn hn) hn,
          Q.val_max2 _ _ hn hn,
          Q.val_min2 _ _ (Q.den_min2_pos hn hn) hn,
          Q.val_min2 _ _ hn hn,
          Q.val_frac, Q.val_frac, Q.val_frac]
        push_cast
        ring
      have c35 : (Q.frac 35 100).val = 35 / 100 := by
        rw [Q.val_frac]
        norm_num
      have i3 : Q.lt (Q.frac 35 100) Cq = true ↔
          35 / 100 < (max (max ((sr : ℚ) / (rs.length : ℚ)) ((sg : ℚ) / (rs.length : ℚ)))
              ((sb : ℚ) / (rs.length : ℚ)) -
            min (min ((sr : ℚ) / (rs.length : ℚ)) ((sg : ℚ) / (rs.length : ℚ)))
              ((sb : ℚ) / (rs.length : ℚ))) / 255 := by
        rw [Q.lt_iff_val _ _ (by decide) hCden, hCval, c35]
      exact ite_of_iff i3 _ _

/-- Witness for C4 at the palette `["#3366cc"]`. -/
theorem inferMoodKeywords_spec_witness :
    inferMoodKeywords ["#3366cc"] = ["balanced", "vibrant", "stylized"] := by
  have h := inferMoodKeywords_spec.2.2 ["#3366cc"] [(51, 102, 204)] (by decide) (by decide)
  rw [h]
  norm_num [moodKeywordsSpec, max_def, min_def]

theorem dropWhile_eq_self_of_head {p : Char → Bool} (l : List Char)
    (h : ∀ c, l.head? = some c → p c = false) : l.dropWhile p = l := by
  cases l with
  | nil => rfl
  | cons a t =>
    rw [List.dropWhile_cons, h a rfl]
    simp

theorem jsTrimL_eq_self (l : List Char)
    (h1 : ∀ c, l.head? = some c → c.isWhitespace = false)
    (h2 : ∀ c, l.getLast? = some c → c.isWhitespace = false) : jsTrimL l = l := by
  unfold jsTrimL
  rw [dropWhile_eq_self_of_head l h1]
  rw [dropWhile_eq_self_of_head l.reverse
    (fun c hc => h2 c (by rwa [List.head?_reverse] at hc))]
  exact List.reverse_reverse l

theorem head?_append_left {α : Type} (l l' : List α) (h : l ≠ []) :
    (l ++ l').head? = l.head? := by
  cases l with
  | nil => exact absurd rfl h
  | cons a t => rfl

theorem getLast?_append_of_getLast? {α : Type} (l l' : List α) (a : α)
    (h : l'.getLast? = some a) : (l ++ l').getLast? = some a := by
  rw [List.getLast?_append, h]
  rfl

theorem endsDot_append (a : String) : (a ++ ".").data.getLast? = some '.' := by
  have h : (a ++ ".").data = a.data ++ ['.'] := by
    rw [String.data_append]
  rw [h]
  exact List.getLast?_concat _

theorem ne_empty_of_endsDot (s : String) (h : s.data.getLast? = some '.') : s ≠ "" := by
  intro he
  subst he
  simp at h

theorem endsDot_sjoin (l : List String) (hne : l ≠ [])
    (h : ∀ s ∈ l, s.data.getLast? = some '.') :
    (sjoin " " l).data.getLast? = some '.' := by
  induction l with
  | nil => exact absurd rfl hne
  | cons x t ih =>
    cases t with
    | nil => exact h x (by simp)
    | cons y u =>
      show ((x ++ " " ++ sjoin " " (y :: u)).data).getLast? = some '.'
      rw [String.data_append]
      exact getLast?_append_of_getLast? _ _ _
        (ih (by simp) (fun s hs => h s (List.mem_cons_of_mem x hs)))

theorem jsTrim_concat_eq (p a b st c pct d hint : String)
    (hp : p.data ≠ [])
    (hws : ∀ ch, p.data.head? = some ch → ch.isWhitespace = false)
    (hhint : hint.data.getLast? = some '.') :
    jsTrim (p ++ a ++ b ++ st ++ c ++ pct ++ d ++ hint) =
      p ++ a ++ b ++ st ++ c ++ pct ++ d ++ hint := by
  have hdata : (p ++ a ++ b ++ st ++ c ++ pct ++ d ++ hint).data =
      p.data ++ (a.data ++ (b.data ++ (st.data ++ (c.data ++ (pct.data ++
        (d.data ++ hint.data)))))) := by
    simp [String.data_append, List.append_assoc]
  have hh : ∀ ch, (p ++ a ++ b ++ st ++ c ++ pct ++ d ++ hint).data.head? = some ch →
      ch.isWhitespace = false := by
    intro ch hch
    rw [hdata, head?_append_left _ _ hp] at hch
    exact hws ch hch
  have hlast : ∀ ch, (p ++ a ++ b ++ st ++ c ++ pct ++ d ++ hint).data.getLast? = some ch →
      ch.isWhitespace = false := by
    intro ch hch
    have g7 : (d.data ++ hint.data).getLast? = some '.' :=
      getLast?_append_of_getLast? _ _ _ hhint
    have g6 : (pct.data ++ (d.data ++ hint.data)).getLast? = some '.' :=
      getLast?_append_of_getLast? _ _ _ g7
    have g5 : (c.data ++ (pct.data ++ (d.data ++ hint.data))).getLast? = some '.' :=
      getLast?_append_of_getLast? _ _ _ g6
    have g4 : (st.data ++ (c.data ++ (pct.data ++ (d.data ++ hint.data)))).getLast?
        = some '.' := getLast?_append_of_getLast? _ _ _ g5
    have g3 : (b.data ++ (st.data ++ (c.data ++ (pct.data ++
        (d.data ++ hint.data))))).getLast? = some '.' :=
      getLast?_append_of_getLast? _ _ _ g4
    have g2 : (a.data ++ (b.data ++ (st.data ++ (c.data ++ (pct.data ++
        (d.data ++ hint.data)))))).getLast? = some '.' :=
      getLast?_append_of_getLast? _ _ _ g3
    have g1 : (p.data ++ (a.data ++ (b.data ++ (st.data ++ (c.data ++ (pct.data ++
        (d.data ++ hint.data))))))).getLast? = some '.' :=
      getLast?_append_of_getLast? _ _ _ g2
    rw [hdata, g1] at hch
    cases hch
    decide
  show String.mk (jsTrimL (p ++ a ++ b ++ st ++ c ++ pct ++ d ++ hint).data) = _
  rw [jsTrimL_eq_self _ hh hlast]

/-- Counterexample for C8: because `performReasoning` trims the whole
template string, a user prompt with leading whitespace is not returned
verbatim before the guidance line — the claim's exact output form fails. -/
theorem performReasoning_format_cex :
    performReasoning " draw a cat"
      { visualTechnique := some "ink wash", moods := some ["calm"],
        palette := some ["#111111"] } (Q.frac 9 10) ≠
      " draw a cat" ++ "\n\n" ++
        "Style guidance (strict, 90%): Technique: ink wash. Mood: calm. Palette: #111111." := by
  decide

/-- C8 (amended): for every intensity whose clamp into [0,1] is at least
0.15, and provided the user prompt is non-empty and does not start with
whitespace and the hint clause is non-empty,
`performReasoning` returns the user prompt followed by the appended
trailing line `Style guidance (<strength>, <round(intensity*100)>%): <hint>`
with the strength classified at 0.8 / 0.4 and the hint joining the
technique, mood and first-five-palette parts, omitting empty parts.
(Without those provisos the final trim of the template may remove leading
whitespace of the prompt or the trailing space after the colon.) -/
theorem performReasoning_format (userPrompt : String) (styleData : StyleData)
    (intensity : Q)
    (hden : 0 < intensity.den)
    (hge : 15 / 100 ≤ (clamp intensity (Q.ofInt 0) (Q.ofInt 1)).val)
    (hp : userPrompt ≠ "")
    (hws : ∀ c, userPrompt.data.head? = some c → c.isWhitespace = false)
    (hhintne : sjoin " "
      (([if styleData.visualTechnique.getD "" = "" then ""
         else "Technique: " ++ styleData.visualTechnique.getD "" ++ ".",
         if (jsOrField styleData.moods styleData.moodKeywords).isEmpty then ""
         else "Mood: " ++ sjoin ", " (jsOrField styleData.moods styleData.moodKeywords) ++ ".",
         if (jsOrField styleData.palette styleData.colorPalette).isEmpty then ""
         else "Palette: " ++
           sjoin ", " ((jsOrField styleData.palette styleData.colorPalette).take 5) ++
           "."]).filter (fun s => s ≠ "")) ≠ "") :
    performReasoning userPrompt styleData intensity =
      userPrompt ++ "\n\n" ++ "Style guidance (" ++
        (if (8 : ℚ) / 10 ≤ (clamp intensity (Q.ofInt 0) (Q.ofInt 1)).val then "strict"
         else if (4 : ℚ) / 10 ≤ (clamp intensity (Q.ofInt 0) (Q.ofInt 1)).val then "balanced"
         else "subtle") ++ ", " ++
        toString ⌊(clamp intensity (Q.ofInt 0) (Q.ofInt 1)).val * 100 + 1 / 2⌋ ++ "%): " ++
        sjoin " "
          (([if styleData.visualTechnique.getD "" = "" then ""
             else "Technique: " ++ styleData.visualTechnique.getD "" ++ ".",
             if (jsOrField styleData.moods styleData.moodKeywords).isEmpty then ""
             else "Mood: " ++ sjoin ", " (jsOrField styleData.moods styleData.moodKeywords) ++ ".",
             if (jsOrField styleData.palette styleData.colorPalette).isEmpty then ""
             else "Palette: " ++
               sjoin ", " ((jsOrField styleData.palette styleData.colorPalette).take 5) ++
               "."]).filter (fun s => s ≠ "")) := by
  simp only [performReasoning]
  set safe := clamp intensity (Q.ofInt 0) (Q.ofInt 1) with hsafe
  have hsden : 0 < safe.den := by
    rw [hsafe]
    exact Q.den_clamp_pos hden (by decide) (by decide)
  have c15 : (Q.frac 15 100).val = 15 / 100 := by
    rw [Q.val_frac]
    norm_num
  have hlt : Q.lt safe (Q.frac 15 100) = false := by
    by_cases hb : Q.lt safe (Q.frac 15 100) = true
    · exfalso
      have := (Q.lt_iff_val _ _ hsden (by decide)).mp hb
      rw [c15] at this
      exact absurd hge (not_le.mpr this)
    · simpa using hb
  rw [if_neg (by rw [hlt]; exact Bool.false_ne_true)]
  have c8 : (Q.frac 8 10).val = 8 / 10 := by
    rw [Q.val_frac]
    norm_num
  have c4 : (Q.frac 4 10).val = 4 / 10 := by
    rw [Q.val_frac]
    norm_num
  have i8 : Q.le (Q.frac 8 10) safe = true ↔ (8 : ℚ) / 10 ≤ safe.val := by
    rw [Q.le_iff_val _ _ (by decide) hsden, c8]
  have i4 : Q.le (Q.frac 4 10) safe = true ↔ (4 : ℚ) / 10 ≤ safe.val := by
    rw [Q.le_iff_val _ _ (by decide) hsden, c4]
  rw [ite_of_iff i4 "balanced" "subtle", ite_of_iff i8 "strict" _]
  have hpct : Q.jsRound (Q.mul safe (Q.ofNat 100)) = ⌊safe.val * 100 + 1 / 2⌋ := by
    rw [Q.jsRound_eq_floor _ (Q.den_mul_pos hsden (by decide)), Q.val_mul, Q.val_ofNat]
    norm_num
  rw [hpct]
  have hpdata : userPrompt.data ≠ [] := by
    intro h
    apply hp
    cases userPrompt with
    | mk l =>
      cases h
      rfl
  have hhint :
      (sjoin " "
        (([if styleData.visualTechnique.getD "" = "" then ""
           else "Technique: " ++ styleData.visualTechnique.getD "" ++ ".",
           if (jsOrField styleData.moods styleData.moodKeywords).isEmpty then ""
           else "Mood: " ++ sjoin ", " (jsOrField styleData.moods styleData.moodKeywords) ++ ".",
           if (jsOrField styleData.palette styleData.colorPalette).isEmpty then ""
           else "Palette: " ++
             sjoin ", " ((jsOrField styleData.palette styleData.colorPalette).take 5) ++
             "."]).filter (fun s => s ≠ ""))).data.getLast? = some '.' := by
    apply endsDot_sjoin
    · intro h
      refine hhintne ?_
      rw [h]
      rfl
    · intro s hs
      rw [List.mem_filter] at hs
      obtain ⟨hmem, hneb⟩ := hs
      simp only [List.mem_cons, List.not_mem_nil, or_false] at hmem
      rcases hmem with h | h | h
      · subst h
        by_cases hc : styleData.visualTechnique.getD "" = ""
        · rw [if_pos hc] at hneb
          simp at hneb
        · rw [if_neg hc]
          exact endsDot_append _
      · subst h
        by_cases hc : (jsOrField styleData.moods styleData.moodKeywords).isEmpty = true
        · rw [if_pos hc] at hneb
          simp at hneb
        · rw [if_neg hc]
          exact endsDot_append _
      · subst h
        by_cases hc : (jsOrField styleData.palette styleData.colorPalette).isEmpty = true
        · rw [if_pos hc] at hneb
          simp at hneb
        · rw [if_neg hc]
          exact endsDot_append _
  exact jsTrim_concat_eq userPrompt "\n\n" "Style guidance (" _ ", " _ "%): " _
    hpdata hws hhint

/-- Witness for C8 (amended) at a concrete prompt, style and intensity 0.9. -/
theorem performReasoning_format_witness :
    performReasoning "draw a cat"
      { visualTechnique := some "ink wash", moods := some ["calm"],
        palette := some ["#111111"] } (Q.frac 9 10) =
      "draw a cat\n\nStyle guidance (strict, 90%): Technique: ink wash. Mood: calm. Palette: #111111." := by
  have h := performReasoning_format "draw a cat"
    { visualTechnique := some "ink wash", moods := some ["calm"],
      palette := some ["#111111"] } (Q.frac 9 10)
    (by decide)
    (by
      have hc : clamp (Q.frac 9 10) (Q.ofInt 0) (Q.ofInt 1) = Q.frac 9 10 := by decide
      rw [hc, Q.val_frac]
      norm_num)
    (by decide)
    (by decide)
    (by decide)
  rw [h]
  have hc : clamp (Q.frac 9 10) (Q.ofInt 0) (Q.ofInt 1) = Q.frac 9 10 := by decide
  rw [hc, Q.val_frac]
  rw [show (((9 : Int) : ℚ)) / ((10 : Nat) : ℚ) = 9 / 10 from by norm_num]
  rw [if_pos (show (8 : ℚ) / 10 ≤ 9 / 10 from by norm_num)]
  rw [show ⌊(9 : ℚ) / 10 * 100 + 1 / 2⌋ = 90 from by norm_num]
  decide

theorem samplePixelsAux_mem (fuel : Nat) (p : Nat × Nat × Nat) :
    ∀ l : List Nat, p ∈ samplePixelsAux fuel l → p.1 ∈ l ∧ p.2.1 ∈ l ∧ p.2.2 ∈ l := by
  induction fuel with
  | zero => intro l hp; simp [samplePixelsAux] at hp
  | succ f ih =>
    intro l hp
    match l with
    | [] => simp [samplePixelsAux] at hp
    | [r] => simp [samplePixelsAux] at hp
    | [r, g] => simp [samplePixelsAux] at hp
    | [r, g, b] => simp [samplePixelsAux] at hp
    | r :: g :: b :: a :: rest =>
      simp only [samplePixelsAux, List.mem_append] at hp
      rcases hp with hp | hp
      · by_cases hc : 220 ≤ a
        · rw [if_pos hc] at hp
          simp only [List.mem_singleton] at hp
          subst hp
          refine ⟨by simp, by simp, by simp⟩
        · rw [if_neg hc] at hp
          simp at hp
      · obtain ⟨h1, h2, h3⟩ := ih (rest.drop 8) hp
        have hsub : rest.drop 8 ⊆ r :: g :: b :: a :: rest := fun x hx =>
          List.mem_cons_of_mem _ (List.mem_cons_of_mem _ (List.mem_cons_of_mem _
            (List.mem_cons_of_mem _ (List.drop_subset 8 rest hx))))
        exact ⟨hsub h1, hsub h2, hsub h3⟩

theorem bucketKey_lt (r g b : Nat) (hr : r < 256) (hg : g < 256) (hb : b < 256) :
    bucketKey r g b < 4096 := by
  have e4 : (2 : Nat) ^ 4 = 16 := by norm_num
  have h1 : r >>> 4 < 16 := by rw [Nat.shiftRight_eq_div_pow, e4]; omega
  have h2 : g >>> 4 < 16 := by rw [Nat.shiftRight_eq_div_pow, e4]; omega
  have h3 : b >>> 4 < 16 := by rw [Nat.shiftRight_eq_div_pow, e4]; omega
  have h12 : (2 : Nat) ^ 12 = 4096 := by norm_num
  have hkey : bucketKey r g b < 2 ^ 12 := by
    unfold bucketKey
    apply Nat.or_lt_two_pow
    · apply Nat.or_lt_two_pow
      · rw [Nat.shiftLeft_eq]
        norm_num
        omega
      · rw [Nat.shiftLeft_eq]
        norm_num
        omega
    · omega
  omega

theorem bumpKey_keys (h : List (Nat × Nat)) (k : Nat) :
    (bumpKey h k).map Prod.fst =
      if k ∈ h.map Prod.fst then h.map Prod.fst else h.map Prod.fst ++ [k] := by
  induction h with
  | nil => simp [bumpKey]
  | cons p t ih =>
    obtain ⟨k', c⟩ := p
    simp only [bumpKey]
    by_cases hk : k' = k
    · subst hk
      simp
    · rw [if_neg hk]
      simp only [List.map_cons, ih]
      by_cases hmem : k ∈ t.map Prod.fst
      · rw [if_pos hmem, if_pos (by simp [List.mem_cons, hmem])]
      · rw [if_neg hmem,
          if_neg (by
            rintro hcon
            simp only [List.mem_cons] at hcon
            rcases hcon with hcon | hcon
            · exact hk hcon.symm
            · exact hmem hcon)]
        simp

theorem bumpKey_keys_nodup (h : List (Nat × Nat)) (k : Nat)
    (hn : (h.map Prod.fst).Nodup) : ((bumpKey h k).map Prod.fst).Nodup := by
  rw [bumpKey_keys]
  by_cases hmem : k ∈ h.map Prod.fst
  · rwa [if_pos hmem]
  · rw [if_neg hmem]
    refine List.Nodup.append hn (List.nodup_singleton _) ?_
    intro a ha hb
    simp only [List.mem_singleton] at hb
    subst hb
    exact hmem ha

theorem bumpKey_bound {P : Nat → Prop} (h : List (Nat × Nat)) (k : Nat)
    (hh : ∀ p ∈ h, P p.1) (hk : P k) : ∀ p ∈ bumpKey h k, P p.1 := by
  induction h with
  | nil =>
    intro p hp
    simp only [bumpKey, List.mem_singleton] at hp
    subst hp
    exact hk
  | cons q t ih =>
    obtain ⟨k', c⟩ := q
    intro p hp
    simp only [bumpKey] at hp
    by_cases hkk : k' = k
    · subst hkk
      rw [if_pos rfl] at hp
      rcases List.mem_cons.mp hp with hp | hp
      · subst hp
        exact hh (k', c) (by simp)
      · exact hh p (List.mem_cons_of_mem _ hp)
    · rw [if_neg hkk] at hp
      rcases List.mem_cons.mp hp with hp | hp
      · subst hp
        exact hh (k', c) (by simp)
      · exact ih (fun q hq => hh q (List.mem_cons_of_mem _ hq)) p hp

theorem foldl_bumpKey_keys_nodup (pix : List (Nat × Nat × Nat)) :
    ∀ h0 : List (Nat × Nat), (h0.map Prod.fst).Nodup →
    ((pix.foldl (fun h2 p => bumpKey h2 (bucketKey p.1 p.2.1 p.2.2)) h0).map Prod.fst).Nodup := by
  induction pix with
  | nil => intro h0 hn; exact hn
  | cons p t ih => intro h0 hn; exact ih _ (bumpKey_keys_nodup h0 _ hn)

theorem foldl_bumpKey_bound {P : Nat → Prop} (pix : List (Nat × Nat × Nat))
    (hpix : ∀ p ∈ pix, P (bucketKey p.1 p.2.1 p.2.2)) :
    ∀ h0 : List (Nat × Nat), (∀ p ∈ h0, P p.1) →
    ∀ p ∈ pix.foldl (fun h2 p => bumpKey h2 (bucketKey p.1 p.2.1 p.2.2)) h0, P p.1 := by
  induction pix with
  | nil => intro h0 hh p hp; exact hh p hp
  | cons q t ih =>
    intro h0 hh p hp
    exact ih (fun x hx => hpix x (List.mem_cons_of_mem _ hx)) _
      (bumpKey_bound h0 _ hh (hpix q (by simp))) p hp

theorem buildHistogram_keys_nodup (images : List (List Nat)) :
    ((buildHistogram images).map Prod.fst).Nodup := by
  unfold buildHistogram
  suffices h : ∀ h0 : List (Nat × Nat), (h0.map Prod.fst).Nodup →
      ((images.foldl
        (fun h img =>
          (samplePixels img).foldl (fun h2 p => bumpKey h2 (bucketKey p.1 p.2.1 p.2.2)) h)
        h0).map Prod.fst).Nodup by
    exact h [] (by simp)
  induction images with
  | nil => intro h0 hn; exact hn
  | cons img t ih => intro h0 hn; exact ih _ (foldl_bumpKey_keys_nodup _ h0 hn)

theorem buildHistogram_bound (images : List (List Nat))
    (hv : ∀ img ∈ images, ∀ v ∈ img, v < 256) :
    ∀ p ∈ buildHistogram images, p.1 < 4096 := by
  unfold buildHistogram
  suffices h : ∀ (imgs : List (List Nat)), (∀ img ∈ imgs, ∀ v ∈ img, v < 256) →
      ∀ h0 : List (Nat × Nat), (∀ p ∈ h0, p.1 < 4096) →
      ∀ p ∈ imgs.foldl
        (fun h img =>
          (samplePixels img).foldl (fun h2 p => bumpKey h2 (bucketKey p.1 p.2.1 p.2.2)) h)
        h0, p.1 < 4096 by
    exact h images hv [] (by simp)
  intro imgs
  induction imgs with
  | nil => intro _ h0 hh p hp; exact hh p hp
  | cons img t ih =>
    intro hb h0 hh p hp
    refine ih (fun i hi => hb i (List.mem_cons_of_mem _ hi)) _ ?_ p hp
    refine @foldl_bumpKey_bound (fun k => k < 4096) (samplePixels img) ?_ h0 hh
    intro q hq
    obtain ⟨h1, h2, h3⟩ := samplePixelsAux_mem _ q _ hq
    exact bucketKey_lt _ _ _ (hb img (by simp) _ h1) (hb img (by simp) _ h2)
      (hb img (by simp) _ h3)

theorem insertByCountDesc_perm (x : Nat × Nat) (l : List (Nat × Nat)) :
    (insertByCountDesc x l).Perm (x :: l) := by
  induction l with
  | nil => exact List.Perm.refl _
  | cons y t ih =>
    simp only [insertByCountDesc]
    by_cases hc : y.2 ≤ x.2
    · rw [if_pos hc]
    · rw [if_neg hc]
      exact (ih.cons y).trans (List.Perm.swap x y t)

theorem sortByCountDesc_perm (l : List (Nat × Nat)) : (sortByCountDesc l).Perm l := by
  induction l with
  | nil => exact List.Perm.refl _
  | cons x t ih =>
    exact (insertByCountDesc_perm x (sortByCountDesc t)).trans (ih.cons x)

theorem insertByCountDesc_sorted (x : Nat × Nat) (l : List (Nat × Nat))
    (hl : l.Pairwise (fun a b => b.2 ≤ a.2)) :
    (insertByCountDesc x l).Pairwise (fun a b => b.2 ≤ a.2) := by
  induction l with
  | nil => simp [insertByCountDesc]
  | cons y t ih =>
    rw [List.pairwise_cons] at hl
    obtain ⟨hy, ht⟩ := hl
    simp only [insertByCountDesc]
    by_cases hc : y.2 ≤ x.2
    · rw [if_pos hc]
      rw [List.pairwise_cons]
      refine ⟨?_, List.pairwise_cons.mpr ⟨hy, ht⟩⟩
      intro z hz
      rcases List.mem_cons.mp hz with hz | hz
      · subst hz; exact hc
      · exact le_trans (hy z hz) hc
    · rw [if_neg hc]
      rw [List.pairwise_cons]
      refine ⟨?_, ih ht⟩
      intro z hz
      have hz2 : z ∈ x :: t := (insertByCountDesc_perm x t).subset hz
      rcases List.mem_cons.mp hz2 with hz2 | hz2
      · subst hz2; exact le_of_not_le hc
      · exact hy z hz2

theorem sortByCountDesc_sorted (l : List (Nat × Nat)) :
    (sortByCountDesc l).Pairwise (fun a b => b.2 ≤ a.2) := by
  induction l with
  | nil => simp [sortByCountDesc]
  | cons x t ih => exact insertByCountDesc_sorted x _ ih

theorem hexChar_lt16_inj (a b : Nat) (ha : a < 16) (hb : b < 16)
    (he : hexChar a = hexChar b) : a = b := by
  have h : ∀ x y : Fin 16, hexChar x.val = hexChar y.val → x = y := by decide
  exact congrArg Fin.val (h ⟨a, ha⟩ ⟨b, hb⟩ he)

theorem isLowerHexDigit_hexChar (n : Nat) (h : n < 16) :
    isLowerHexDigit (hexChar n) = true := by
  have hfin : ∀ x : Fin 16, isLowerHexDigit (hexChar x.val) = true := by decide
  exact hfin ⟨n, h⟩

theorem isLowerHexColor_bucketHex (k : Nat) : isLowerHexColor (bucketHex k) = true := by
  have hd : ∀ v : Nat, isLowerHexDigit (hexChar (min v 255 / 16)) = true :=
    fun v => isLowerHexDigit_hexChar _ (by omega)
  have hm : ∀ v : Nat, isLowerHexDigit (hexChar (min v 255 % 16)) = true :=
    fun v => isLowerHexDigit_hexChar _ (by omega)
  unfold bucketHex rgbToHex isLowerHexColor
  simp [hd, hm]

theorem and15_eq_mod (x : Nat) : x &&& 15 = x % 16 := by
  have h := Nat.and_pow_two_sub_one_eq_mod x 4
  norm_num at h
  exact h

theorem shr8_eq_div (x : Nat) : x >>> 8 = x / 256 := by
  rw [Nat.shiftRight_eq_div_pow]

theorem shr4_eq_div (x : Nat) : x >>> 4 = x / 16 := by
  rw [Nat.shiftRight_eq_div_pow]

theorem bucketHex_inj (k1 k2 : Nat) (h1 : k1 < 4096) (h2 : k2 < 4096)
    (he : bucketHex k1 = bucketHex k2) : k1 = k2 := by
  have hdig : ∀ x : Nat, x ≤ 15 → hexChar (min (x * 16 + 8) 255 / 16) = hexChar x := by
    intro x hx
    congr 1
    omega
  have hmod : ∀ x : Nat, x ≤ 15 → hexChar (min (x * 16 + 8) 255 % 16) = '8' := by
    intro x hx
    have : min (x * 16 + 8) 255 % 16 = 8 := by omega
    rw [this]
    rfl
  unfold bucketHex rgbToHex at he
  rw [hdig _ Nat.and_le_right, hdig _ Nat.and_le_right, hdig _ Nat.and_le_right,
    hdig _ Nat.and_le_right, hdig _ Nat.and_le_right, hdig _ Nat.and_le_right,
    hmod _ Nat.and_le_right, hmod _ Nat.and_le_right, hmod _ Nat.and_le_right,
    hmod _ Nat.and_le_right, hmod _ Nat.and_le_right, hmod _ Nat.and_le_right] at he
  injection he with he
  simp at he
  obtain ⟨ha, hb, hc⟩ := he
  have ea1 := hexChar_lt16_inj _ _ (Nat.lt_succ_of_le Nat.and_le_right)
    (Nat.lt_succ_of_le Nat.and_le_right) ha
  have eb1 := hexChar_lt16_inj _ _ (Nat.lt_succ_of_le Nat.and_le_right)
    (Nat.lt_succ_of_le Nat.and_le_right) hb
  have ec1 := hexChar_lt16_inj _ _ (Nat.lt_succ_of_le Nat.and_le_right)
    (Nat.lt_succ_of_le Nat.and_le_right) hc
  rw [and15_eq_mod, and15_eq_mod, shr8_eq_div, shr8_eq_div] at ea1
  rw [and15_eq_mod, and15_eq_mod, shr4_eq_div, shr4_eq_div] at eb1
  rw [and15_eq_mod, and15_eq_mod] at ec1
  omega

theorem collectColors_length_le (top : List (Nat × Nat)) (count : Nat) :
    ∀ acc : List String, acc.length < count →
    (collectColors top count acc).length ≤ count := by
  induction top with
  | nil => intro acc h; simpa [collectColors] using Nat.le_of_lt h
  | cons p rest ih =>
    intro acc h
    obtain ⟨key, cnt⟩ := p
    simp only [collectColors]
    by_cases hmem : bucketHex key ∈ acc
    · rw [if_pos hmem]
      by_cases hc : count ≤ acc.length
      · rw [if_pos hc]; omega
      · rw [if_neg hc]; exact ih acc h
    · rw [if_neg hmem]
      by_cases hc : count ≤ (acc ++ [bucketHex key]).length
      · rw [if_pos hc]
        simp only [List.length_append, List.length_singleton] at hc ⊢
        omega
      · rw [if_neg hc]
        refine ih _ ?_
        simp only [List.length_append, List.length_singleton] at hc ⊢
        omega

theorem collectColors_nodup (top : List (Nat × Nat)) (count : Nat) :
    ∀ acc : List String, acc.Nodup → (collectColors top count acc).Nodup := by
  induction top with
  | nil => intro acc h; exact h
  | cons p rest ih =>
    intro acc h
    obtain ⟨key, cnt⟩ := p
    simp only [collectColors]
    by_cases hmem : bucketHex key ∈ acc
    · rw [if_pos hmem]
      by_cases hc : count ≤ acc.length
      · rw [if_pos hc]; exact h
      · rw [if_neg hc]; exact ih acc h
    · rw [if_neg hmem]
      have h2 : (acc ++ [bucketHex key]).Nodup := by
        refine List.Nodup.append h (List.nodup_singleton _) ?_
        intro a ha hb
        simp only [List.mem_singleton] at hb
        subst hb
        exact hmem ha
      by_cases hc : count ≤ (acc ++ [bucketHex key]).length
      · rw [if_pos hc]; exact h2
      · rw [if_neg hc]; exact ih _ h2

theorem collectColors_sublist (top : List (Nat × Nat)) (count : Nat) :
    ∀ acc : List String, ∃ ps : List (Nat × Nat), ps.Sublist top ∧
      collectColors top count acc = acc ++ ps.map (fun p => bucketHex p.1) := by
  induction top with
  | nil => intro acc; exact ⟨[], List.Sublist.refl _, by simp [collectColors]⟩
  | cons p rest ih =>
    intro acc
    obtain ⟨key, cnt⟩ := p
    simp only [collectColors]
    by_cases hmem : bucketHex key ∈ acc
    · rw [if_pos hmem]
      by_cases hc : count ≤ acc.length
      · rw [if_pos hc]
        exact ⟨[], List.nil_sublist _, by simp⟩
      · rw [if_neg hc]
        obtain ⟨ps, hs, he⟩ := ih acc
        exact ⟨ps, hs.cons _, he⟩
    · rw [if_neg hmem]
      by_cases hc : count ≤ (acc ++ [bucketHex key]).length
      · rw [if_pos hc]
        exact ⟨[(key, cnt)], (List.nil_sublist rest).cons₂ _, by simp⟩
      · rw [if_neg hc]
        obtain ⟨ps, hs, he⟩ := ih (acc ++ [bucketHex key])
        refine ⟨(key, cnt) :: ps, hs.cons₂ _, ?_⟩
        rw [he, List.append_assoc]
        rfl

theorem collectColors_length_eq (top : List (Nat × Nat)) (count : Nat) :
    ∀ acc : List String, acc.length < count →
    (acc ++ top.map (fun p => bucketHex p.1)).Nodup →
    (collectColors top count acc).length = min count (acc.length + top.length) := by
  induction top with
  | nil =>
    intro acc h _
    simp only [collectColors, List.length_nil, Nat.add_zero]
    omega
  | cons p rest ih =>
    intro acc h hnd
    obtain ⟨key, cnt⟩ := p
    have hmem : bucketHex key ∉ acc := by
      intro hmemacc
      exact (List.nodup_append.mp hnd).2.2 hmemacc (by simp)
    simp only [collectColors]
    rw [if_neg hmem]
    have hlen1 : (acc ++ [bucketHex key]).length = acc.length + 1 := by simp
    by_cases hc : count ≤ (acc ++ [bucketHex key]).length
    · rw [if_pos hc]
      rw [hlen1] at hc
      rw [hlen1, List.length_cons, Nat.min_eq_left (by omega)]
      omega
    · rw [if_neg hc]
      rw [hlen1] at hc
      have hnd2 : ((acc ++ [bucketHex key]) ++ rest.map (fun p => bucketHex p.1)).Nodup := by
        rw [List.append_assoc]
        simpa using hnd
      have hlt2 : (acc ++ [bucketHex key]).length < count := by omega
      rw [ih _ hlt2 hnd2]
      rw [hlen1, List.length_cons]
      congr 1
      omega

/-- C5: for every image set and count, `extractDominantPalette` returns at
most `count` entries, without duplicates, each the lowercase hex center
color of a bucket of the combined histogram; the palette is the image of a
sublist of the count-sorted histogram, so entries are ordered by
non-increasing pixel frequency of their source buckets; the histogram has
pairwise distinct bucket keys; and fewer than `count` entries are returned
only when the histogram has fewer than `count` distinct buckets. -/
theorem extractDominantPalette_spec (images : List (List Nat)) (count : Nat)
    (hv : ∀ img ∈ images, ∀ v ∈ img, v < 256) :
    (extractDominantPalette images count).length ≤ count ∧
    (extractDominantPalette images count).Nodup ∧
    (∀ c ∈ extractDominantPalette images count, isLowerHexColor c = true) ∧
    (∀ c ∈ extractDominantPalette images count,
      ∃ p ∈ buildHistogram images, c = bucketHex p.1) ∧
    (∃ ps : List (Nat × Nat), ps.Sublist (sortByCountDesc (buildHistogram images)) ∧
      extractDominantPalette images count = ps.map (fun p => bucketHex p.1) ∧
      ps.Pairwise (fun a b => b.2 ≤ a.2) ∧ ∀ p ∈ ps, p ∈ buildHistogram images) ∧
    ((buildHistogram images).map Prod.fst).Nodup ∧
    ((extractDominantPalette images count).length < count →
      (buildHistogram images).length < count) := by
  obtain ⟨ps, hsub, heq⟩ := collectColors_sublist
    ((sortByCountDesc (buildHistogram images)).take (max (count * 3) count)) count []
  have hext : extractDominantPalette images count = collectColors
      ((sortByCountDesc (buildHistogram images)).take (max (count * 3) count)) count [] := rfl
  have hsub2 : ps.Sublist (sortByCountDesc (buildHistogram images)) :=
    hsub.trans (List.take_sublist _ _)
  have hform : extractDominantPalette images count = ps.map (fun p => bucketHex p.1) := by
    rw [hext, heq]
    simp
  have hknodup := buildHistogram_keys_nodup images
  have hbound := buildHistogram_bound images hv
  have hmemhist : ∀ p ∈ ps, p ∈ buildHistogram images := fun p hp =>
    (sortByCountDesc_perm _).mem_iff.mp (hsub2.subset hp)
  have hlen : (extractDominantPalette images count).length ≤ count := by
    rcases Nat.eq_zero_or_pos count with hc | hc
    · subst hc
      rw [hext]
      norm_num
      simp [collectColors]
    · rw [hext]
      exact collectColors_length_le _ _ [] (by simpa using hc)
  refine ⟨hlen, ?_, ?_, ?_,
    ⟨ps, hsub2, hform, List.Pairwise.sublist hsub2 (sortByCountDesc_sorted _), hmemhist⟩,
    hknodup, ?_⟩
  · rw [hext]
    exact collectColors_nodup _ _ [] List.nodup_nil
  · intro c hc
    rw [hform] at hc
    obtain ⟨p, hp, rfl⟩ := List.mem_map.mp hc
    exact isLowerHexColor_bucketHex _
  · intro c hc
    rw [hform] at hc
    obtain ⟨p, hp, rfl⟩ := List.mem_map.mp hc
    exact ⟨p, hmemhist p hp, rfl⟩
  · intro hlt
    by_contra hge
    push_neg at hge
    rcases Nat.eq_zero_or_pos count with hc0 | hcpos
    · omega
    · have hsortlen : (sortByCountDesc (buildHistogram images)).length
          = (buildHistogram images).length := (sortByCountDesc_perm _).length_eq
      set top := (sortByCountDesc (buildHistogram images)).take (max (count * 3) count)
        with htopdef
      have htoplen : top.length
          = min (max (count * 3) count) (buildHistogram images).length := by
        rw [htopdef, List.length_take, hsortlen]
      have hsortkeys : ((sortByCountDesc (buildHistogram images)).map Prod.fst).Nodup :=
        ((sortByCountDesc_perm (buildHistogram images)).map Prod.fst).nodup_iff.mpr hknodup
      have htopkeys : (top.map Prod.fst).Nodup :=
        ((List.take_sublist _ _).map Prod.fst).nodup hsortkeys
      have htopnodup : top.Nodup := htopkeys.of_map
      have hmapnodup : (top.map (fun p => bucketHex p.1)).Nodup := by
        refine List.Nodup.map_on ?_ htopnodup
        intro x hx y hy hxy
        have hxm : x ∈ buildHistogram images :=
          (sortByCountDesc_perm _).mem_iff.mp ((List.take_sublist _ _).subset hx)
        have hym : y ∈ buildHistogram images :=
          (sortByCountDesc_perm _).mem_iff.mp ((List.take_sublist _ _).subset hy)
        have hkey : x.1 = y.1 := bucketHex_inj _ _ (hbound x hxm) (hbound y hym) hxy
        exact List.inj_on_of_nodup_map htopkeys hx hy hkey
      have hleneq := collectColors_length_eq top count [] (by simpa using hcpos)
        (by simpa using hmapnodup)
      rw [hext, hleneq, htoplen] at hlt
      have hmax : count ≤ max (count * 3) count := Nat.le_max_right _ _
      omega

/-- Witness for C5 on a one-pixel image. -/
theorem extractDominantPalette_spec_witness :
    (∀ img ∈ [[51, 102, 204, 255]], ∀ v ∈ img, v < 256) ∧
    (extractDominantPalette [[51, 102, 204, 255]] 5).length ≤ 5 ∧
    (extractDominantPalette [[51, 102, 204, 255]] 5).Nodup :=
  ⟨by decide,
   (extractDominantPalette_spec [[51, 102, 204, 255]] 5 (by decide)).1,
   (extractDominantPalette_spec [[51, 102, 204, 255]] 5 (by decide)).2.1⟩
